import Mathlib

/-!
# Spreadsheet-agent: plan compiler and step executor, shallowly embedded

This development embeds the plan compiler (`src/backend/server.js`), the
deterministic formula builders (`builders.js`, reproduced inside
`src/backend/skills/README.md`) and the step executor (`src/Code.gs`) of the
Spreadsheet-agent repository, and settles the frozen claims about them.

Conventions used throughout:
* JavaScript cell/parameter values are modelled by `JsValue`
  (strings, integer numbers, `null`, `undefined`).
* Sheets are `List Row` with `Row = List JsValue`; row numbers are 1-based,
  matching Apps Script `getRange` addressing.
* Machine floating point is modelled by `ℚ` where a numeric ratio is computed
  (impact percentages); all the concrete values the claims exercise are exact
  in one decimal digit, so no rounding discrepancy arises.
-/

/-! ## JavaScript primitive operations -/

/-- JavaScript runtime values as they occur in plan parameters and sheet
cells.  Numbers are restricted to integers: every numeric literal appearing
in the claims and in the sources embedded here is integral. -/
inductive JsValue : Type where
  | str (s : String)
  | num (n : Int)
  | null
  | undef
deriving DecidableEq, Repr

/-- `String(v)` — JavaScript string coercion. -/
def jsToString : JsValue → String
  | .str s => s
  | .num n => toString n
  | .null => "null"
  | .undef => "undefined"

/-- The whitespace class of JavaScript `trim` (ASCII part; the sources only
ever trim ASCII data). -/
def jsWS (c : Char) : Bool :=
  c == ' ' || c == '\t' || c == '\n' || c == '\r' || c == '\x0b' || c == '\x0c'

/-- Strip leading whitespace from a character list. -/
def trimLeftL (l : List Char) : List Char := l.dropWhile jsWS

/-- Strip trailing whitespace from a character list. -/
def trimRightL (l : List Char) : List Char := (l.reverse.dropWhile jsWS).reverse

/-- `s.trim()` — strip whitespace from both ends. -/
def jsTrim (s : String) : String := ⟨trimRightL (trimLeftL s.data)⟩

/-- `s.toLowerCase()` (ASCII). -/
def jsToLower (s : String) : String := ⟨s.data.map Char.toLower⟩

/-- `s.toUpperCase()` (ASCII). -/
def jsToUpper (s : String) : String := ⟨s.data.map Char.toUpper⟩

/-- Character class of the `/^[A-Z]{1,2}$/i` test in `resolveColumn`. -/
def isAsciiLetter (c : Char) : Bool :=
  ('A' ≤ c && c ≤ 'Z') || ('a' ≤ c && c ≤ 'z')

/-- `/^[A-Z]{1,2}$/i.test s`: one or two alphabetic characters. -/
def isLetterShaped (s : String) : Bool :=
  (s.data.length == 1 || s.data.length == 2) && s.data.all isAsciiLetter

/-- Substring test on character lists (JavaScript `includes`). -/
def listHasSub (hay needle : List Char) : Bool :=
  (List.range (hay.length + 1)).any (fun i => needle.isPrefixOf (hay.drop i))

/-- `hay.includes(needle)` for strings. -/
def jsIncludes (hay needle : String) : Bool := listHasSub hay.data needle.data

/-- Digit run to a natural number. -/
def natOfDigits (l : List Char) : Nat :=
  l.foldl (fun acc c => acc * 10 + (c.toNat - 48)) 0

/-- Fractional digit run to a rational in `[0,1)`. -/
def fracOfDigits (l : List Char) : ℚ :=
  l.foldr (fun c acc => ((c.toNat - 48 : ℕ) + acc) / 10) 0

/-- `parseFloat` on a string: skip leading whitespace, optional sign, integer
digits, optional fraction.  `none` models `NaN`.  (The exponent form never
occurs in the data the sources handle.) -/
def parseFloatStr (s : String) : Option ℚ :=
  let l := s.data.dropWhile jsWS
  let (sgn, l1) : ℚ × List Char :=
    match l with
    | '-' :: t => (-1, t)
    | '+' :: t => (1, t)
    | _ => (1, l)
  let ip := l1.takeWhile Char.isDigit
  let r := l1.dropWhile Char.isDigit
  let fp := match r with
    | '.' :: t => t.takeWhile Char.isDigit
    | _ => []
  if ip = [] ∧ fp = [] then none
  else some (sgn * ((natOfDigits ip : ℚ) + fracOfDigits fp))

/-- `parseFloat(v)` on a JavaScript value (numbers pass through,
everything else is coerced to a string first). -/
def jsParseFloat : JsValue → Option ℚ
  | .num n => some (n : ℚ)
  | v => parseFloatStr (jsToString v)

/-! ## Column Resolver (`src/backend/server.js`, `resolveColumn`) -/

/-- A schema header entry as produced by `getSheetSchema` in `src/Code.gs`:
a display name, the canonical column letter and the 0-based index. -/
structure Header where
  name : String
  column : String
  index : Nat
deriving DecidableEq, Repr

/-- `resolveColumn(identifier, headers)` from `src/backend/server.js`:
empty identifiers pass through; a trimmed identifier of one or two letters is
returned upper-cased; otherwise the first case-insensitive header-name match
wins; otherwise the trimmed identifier is returned. -/
def resolveColumn (identifier : String) (headers : List Header) : String :=
  if identifier = "" then identifier
  else
    let idStr := jsTrim identifier
    if isLetterShaped idStr then jsToUpper idStr
    else
      match headers.find? (fun h => jsToLower h.name = jsToLower idStr) with
      | some h => h.column
      | none => idStr

/-! ## Formula builders (`builders.js`, embedded in `src/backend/skills/README.md`) -/

/-- One criterion clause of a `*IF`/`*IFS` builder. -/
structure Criterion where
  column : String
  operator : Option String
  value : JsValue
deriving DecidableEq, Repr

/-- `mapOperator(op)`: absent operators mean equality, known synonyms map to
the four sheet comparison tokens, anything else passes through unchanged. -/
def mapOperator : Option String → String
  | none => "="
  | some op =>
    (([("equals", "="), ("not_equals", "<>"), ("greater", ">"), ("less", "<"),
       ("greater_than", ">"), ("less_than", "<"), ("not_equal_to", "<>")]
       : List (String × String)).lookup (jsToLower op)).getD op

/-- The criterion value as the JavaScript expression
`(sheetOp === '=') ? c.value : `${sheetOp}${c.value}`` computes it: under any
operator other than `=` the result is a *string* (template literal). -/
def criterionValue (c : Criterion) : JsValue :=
  let sheetOp := mapOperator c.operator
  if sheetOp = "=" then c.value else .str (sheetOp ++ jsToString c.value)

/-- `typeof criterion === 'string' ? `"${criterion}"` : criterion` rendered
into the formula text. -/
def formatCriterion (c : Criterion) : String :=
  match criterionValue c with
  | .str s => "\"" ++ s ++ "\""
  | v => jsToString v

/-- One `COUNTIFS` argument pair contributed by a criterion. -/
def countIfsChunk (c : Criterion) : String :=
  c.column ++ ":" ++ c.column ++ ", " ++ formatCriterion c

/-- The `criteria.forEach` accumulation inside `buildCountIfs`. -/
def countIfsAux (idx : Nat) (acc : String) : List Criterion → String
  | [] => acc
  | c :: cs =>
      countIfsAux (idx + 1)
        (acc ++ (if idx > 0 then ", " else "") ++ countIfsChunk c) cs

/-- `buildCountIfs(params)` from `builders.js`. -/
def buildCountIfs (criteria : List Criterion) : String :=
  countIfsAux 0 "=COUNTIFS(" criteria ++ ")"

/-- `buildSum(params)` from `builders.js`. -/
def buildSum (column : String) : String := "=SUM(" ++ column ++ ":" ++ column ++ ")"

/-- `wrapFormula(formula, rules)` from `builders.js`: wrap in `IFERROR` when
the registry flag is set and the text is formula-shaped. -/
def wrapFormula (formula : String) (wrapWithIferror : Bool) : String :=
  if wrapWithIferror ∧ formula.startsWith "=" then
    "=IFERROR(" ++ formula.drop 1 ++ ", \"\")"
  else formula


/-! ## Plan Compiler (`src/backend/server.js`, `app.post('/plan')`)

The skill registry module (`allSkills` from `./skills/index`) is not among
the repository's sources (the file present under `src/backend/skills/` is an
older keyword-based selector that does not export it), so its *shape* is
modelled from the spec (§3 "Skill Pattern Definition", §4.2): a pattern maps
to a builder binding, an ordered set of required parameter names and an
aggregate/per-row type; cross-cutting rules carry the error-wrap flag, the
chart goal table, the supported chart types, the pie slice cap and the
clean-data operation set.  All compiler theorems quantify over the registry,
so nothing depends on the registry's (unknown) concrete contents. -/

/-- JavaScript truthiness for the modelled values. -/
def jsTruthy : JsValue → Bool
  | .str s => s ≠ ""
  | .num n => n ≠ 0
  | .null => false
  | .undef => false

/-- A raw calculation parameter value: a scalar, an explicit criterion-clause
list, or a flat `column → value` map (the shape the normalization pass turns
into clauses). -/
inductive ParamVal : Type where
  | scalar (v : JsValue)
  | clauses (cs : List Criterion)
  | flatMap (m : List (String × JsValue))
deriving DecidableEq, Repr

/-- One item of the raw plan's `calculations` list. -/
structure Calc where
  pattern : String
  parameters : List (String × ParamVal)
  label : Option String
deriving DecidableEq, Repr

/-- `Modelled from the spec:` a Skill Pattern Definition
`{builderName, requiredParams, type}` (§3); the builder binding is embedded
as the builder function itself (the source dispatches
`builders[patternDef.builder]`). -/
structure PatternDef where
  builder : List (String × ParamVal) → String
  required_params : List String
  type : Bool  -- `true` models `'aggregate'`, `false` a per-row pattern

/-- `cal.parameters[p] === undefined` is false: the parameter exists and is
not the explicit `undefined` value. -/
def paramDefined (ps : List (String × ParamVal)) (p : String) : Bool :=
  match ps.lookup p with
  | some (.scalar .undef) => false
  | some _ => true
  | none => false

/-- `a || b` for strings (empty is falsy). -/
def strOr (a b : String) : String := if a = "" then b else a

/-- `opt || d` where `opt` is a possibly-absent, possibly-empty string. -/
def strOptOr (o : Option String) (d : String) : String :=
  match o with
  | some s => strOr s d
  | none => d

/-- Criteria normalization: a flat `{"A": "X"}` map becomes explicit clauses
with `operator: 'equals'`, preserving key order. -/
def normalizeCriteria (ps : List (String × ParamVal)) : List (String × ParamVal) :=
  ps.map (fun p =>
    match p with
    | ("criteria", .flatMap m) =>
        ("criteria", .clauses (m.map (fun kv => ⟨kv.1, some "equals", kv.2⟩)))
    | other => other)

/-- Column auto-resolution of one scalar parameter: applied only when the
current value is truthy (`if (resolvedParams.column) ...`). -/
def resolveScalarAt (headers : List Header) (key : String) :
    List (String × ParamVal) → List (String × ParamVal) :=
  List.map (fun p =>
    if p.1 = key then
      match p.2 with
      | .scalar v =>
          if jsTruthy v then (p.1, .scalar (.str (resolveColumn (jsToString v) headers)))
          else p
      | _ => p
    else p)

/-- Column auto-resolution inside an explicit criteria list.  (The
`c.column || c.criteria_column` fallback of the source collapses to
`c.column` here: no modelled clause carries a separate `criteria_column`.) -/
def resolveCriteriaCols (headers : List Header) :
    List (String × ParamVal) → List (String × ParamVal) :=
  List.map (fun p =>
    match p with
    | ("criteria", .clauses cs) =>
        ("criteria", .clauses (cs.map (fun c =>
          { c with column := if c.column = "" then c.column
                             else resolveColumn c.column headers })))
    | other => other)

/-- The parameter pipeline of the formula branch: normalize flat criteria,
then resolve `column`, `sum_column`, `average_column`, `criteria_column` and
every clause column. -/
def resolveCalcParams (headers : List Header) (ps : List (String × ParamVal)) :
    List (String × ParamVal) :=
  resolveCriteriaCols headers
    (resolveScalarAt headers "criteria_column"
      (resolveScalarAt headers "average_column"
        (resolveScalarAt headers "sum_column"
          (resolveScalarAt headers "column"
            (normalizeCriteria ps)))))

/-- Parameter record of an emitted step. -/
inductive StepParams : Type where
  | kv (l : List (String × JsValue))
  | chart (chartType title xAxisColumn : String) (seriesColumns : List String)
      (styling : String)
deriving DecidableEq, Repr

/-- A compiled plan step. -/
structure Step where
  stepNumber : Nat
  action : String
  description : String
  params : StepParams
deriving DecidableEq, Repr

/-- One iteration of `calcs.forEach((calc, idx) => ...)`: `none` is the
skip-with-warning outcome (unsupported pattern, or a required parameter
missing). -/
def mkCalcStep (registry : List (String × PatternDef)) (headers : List Header)
    (wrapFlag : Bool) (idx : Nat) (cal : Calc) : Option Step :=
  match registry.lookup cal.pattern with
  | none => none
  | some patternDef =>
    if patternDef.required_params.all (paramDefined cal.parameters) then
      let resolvedParams := resolveCalcParams headers cal.parameters
      let formula := wrapFormula (patternDef.builder resolvedParams) wrapFlag
      if patternDef.type then
        some { stepNumber := idx + 1
               action := "QUERY_VALUE"
               description := strOptOr cal.label ("Querying " ++ cal.pattern)
               params := .kv [("formula", .str formula),
                              ("label", .str (strOptOr cal.label cal.pattern))] }
      else
        some { stepNumber := idx + 1
               action := "ADD_COLUMN"
               description := "Calculating " ++ cal.pattern
               params := .kv [("columnName",
                                match cal.parameters.lookup "column_name" with
                                | some (.scalar v) =>
                                    if jsTruthy v then v else .str cal.pattern
                                | _ => .str cal.pattern),
                              ("formula", .str formula)] }
    else none

/-- The formula-branch loop: steps are pushed in iteration order, skipped
items produce nothing (but still advance the index). -/
def compileCalcsAux (registry : List (String × PatternDef)) (headers : List Header)
    (wrapFlag : Bool) (idx : Nat) : List Calc → List Step
  | [] => []
  | c :: cs =>
    match mkCalcStep registry headers wrapFlag idx c with
    | none => compileCalcsAux registry headers wrapFlag (idx + 1) cs
    | some s => s :: compileCalcsAux registry headers wrapFlag (idx + 1) cs

/-- `calcs.forEach(...)` of the formula branch, from index `0`. -/
def compileCalcs (registry : List (String × PatternDef)) (headers : List Header)
    (wrapFlag : Bool) (calcs : List Calc) : List Step :=
  compileCalcsAux registry headers wrapFlag 0 calcs

/-- One raw operation of a `clean_data` / `organization` plan. -/
structure Op where
  operation : String
  column : Option String
  operator : Option String
  value : JsValue
  fillValue : JsValue
  order : Option String
  range : Option String
  format : Option String
deriving DecidableEq, Repr

/-- The `filter_data` operator synonym map of the clean_data branch. -/
def cleanOpMap : List (String × String) :=
  [("not_equal_to", "not_equals"), ("not_equal", "not_equals"),
   ("is_not", "not_equals"), ("!=", "not_equals"),
   ("equal_to", "equals"), ("is", "equals"), ("==", "equals"),
   ("greater_than", "greater"), (">", "greater"),
   ("less_than", "less"), ("<", "less")]

/-- One iteration of the clean_data `operations.forEach`: unsupported
operations are skipped; `filter_data` maps to the `FILTER_DATA` action and
gets operator synonyms normalized. -/
def mkCleanStep (cleanOps : List String) (headers : List Header)
    (index : Nat) (op : Op) : Option Step :=
  if cleanOps.contains op.operation then
    let stepAction := if op.operation = "filter_data" then "FILTER_DATA" else "CLEAN_DATA"
    let resolvedCol := op.column.map (fun c => resolveColumn c headers)
    let operator :=
      if op.operation = "filter_data" then
        op.operator.map (fun o => (cleanOpMap.lookup (jsToLower o)).getD o)
      else op.operator
    some { stepNumber := index + 1
           action := stepAction
           description := "Performing " ++ op.operation
           params := .kv [("column", match resolvedCol with
                                     | some c => .str c
                                     | none => .undef),
                          ("operation", .str op.operation),
                          ("operator", match operator with
                                       | some o => .str o
                                       | none => .undef),
                          ("value", op.value),
                          ("fillValue", op.fillValue)] }
  else none

/-- The clean_data branch loop. -/
def compileCleanAux (cleanOps : List String) (headers : List Header)
    (index : Nat) : List Op → List Step
  | [] => []
  | op :: ops =>
    match mkCleanStep cleanOps headers index op with
    | none => compileCleanAux cleanOps headers (index + 1) ops
    | some s => s :: compileCleanAux cleanOps headers (index + 1) ops

/-- One iteration of the organization `operations.forEach`: the action tag is
the upper-cased operation name, the column (when truthy) is resolved, every
other parameter passes through. -/
def mkOrgStep (headers : List Header) (index : Nat) (op : Op) : Step :=
  let resolvedCol :=
    match op.column with
    | some c => if c ≠ "" then some (resolveColumn c headers) else some c
    | none => none
  { stepNumber := index + 1
    action := jsToUpper op.operation
    description := "Performing " ++ op.operation
    params := .kv [("operation", .str op.operation),
                   ("column", match resolvedCol with
                              | some c => .str c
                              | none => .undef),
                   ("order", match op.order with
                             | some o => .str o
                             | none => .undef),
                   ("range", match op.range with
                             | some r => .str r
                             | none => .undef),
                   ("format", match op.format with
                              | some f => .str f
                              | none => .undef)] }

/-- The organization branch loop (no skipping: every operation emits). -/
def compileOrgAux (headers : List Header) (index : Nat) : List Op → List Step
  | [] => []
  | op :: ops => mkOrgStep headers index op :: compileOrgAux headers (index + 1) ops

/-- Classification result from the external classifier. -/
structure IntentResult where
  intent : String
  explicit_chart_type : Option String
  confidence : ℚ

/-- The raw plan returned by the planning collaborator (shape per intent). -/
structure RawPlan where
  conversational_answer : Option String
  calculations : List Calc
  chart_goal : Option String
  explicit_chart_type : Option String
  x_column : Option String
  y_columns : List String
  operations : Option (List Op)
  title : Option String

/-- `Modelled from the spec:` the cross-cutting part of the absent skill
registry (`allSkills`): formula pattern table and error-wrap rule, chart goal
defaults, supported chart types, pie slice cap, a styling blob and the
clean-data operation set (§4.2). -/
structure Registry where
  formulaPatterns : List (String × PatternDef)
  wrapWithIferror : Bool
  chartGoals : List (String × String)
  chartSupported : List String
  pieMaxSlices : Nat
  chartStyling : String
  cleanOps : List String

/-- The response shape of `POST /plan`. -/
structure PlanResponse where
  success : Bool
  answer : String
  summary : String
  steps : List Step
deriving DecidableEq, Repr

/-- The chart decision engine of the chart branch: explicit type from the
classification, else from the raw plan, else the registry default for the
goal, else `'column'`; unsupported types fall back to `'column'`; a pie chart
with more series than the slice cap becomes a bar chart. -/
def chartDecision (reg : Registry) (ir : IntentResult) (rawPlan : RawPlan)
    (resolvedYLen : Nat) : String :=
  let fromClass := strOptOr ir.explicit_chart_type
                     (strOptOr rawPlan.explicit_chart_type "")
  let fromGoal :=
    if fromClass = "" then
      match rawPlan.chart_goal.bind (fun g => reg.chartGoals.lookup g) with
      | some t => t
      | none => ""
    else fromClass
  let chartType := jsToLower (strOr fromGoal "column")
  let chartType :=
    if reg.chartSupported.contains chartType then chartType else "column"
  if chartType = "pie" ∧ resolvedYLen > reg.pieMaxSlices then "bar" else chartType

/-- `app.post('/plan')` after classification, as a function of the
classification result, the (lazily produced) raw plan, the insight answer and
the sheet headers.  The second component records whether the planning
collaborator was invoked.  The confidence gate sits in front of everything;
the `insight` intent answers directly and never reaches the planner; the
remaining intents compile through the branch loops, with the
invalid-operations throw surfacing as a `success:false` response. -/
def handlePlan (reg : Registry) (ir : IntentResult) (insightAnswer : String)
    (rawPlan : RawPlan) (headers : List Header) (prompt : String) :
    PlanResponse × Bool :=
  if ir.confidence < 6/10 then
    ({ success := false
       answer := "I'm not sure what you want to do. Could you be more specific?"
       summary := "", steps := [] }, false)
  else if ir.intent = "insight" then
    ({ success := true, answer := insightAnswer, summary := "", steps := [] }, false)
  else
    let finish : String → List Step → PlanResponse × Bool := fun summary steps =>
      ({ success := true
         answer := strOptOr rawPlan.conversational_answer summary
         summary := summary, steps := steps }, true)
    let invalidOps : String → PlanResponse × Bool := fun what =>
      ({ success := false
         answer := "I couldn't complete that: Invalid " ++ what ++ " operations format"
         summary := "", steps := [] }, true)
    if ir.intent = "formula" then
      finish "Performing calculations."
        (compileCalcs reg.formulaPatterns headers reg.wrapWithIferror
          rawPlan.calculations)
    else if ir.intent = "chart" then
      let resolvedX := strOptOr (rawPlan.x_column.map (resolveColumn · headers)) ""
      let resolvedY := rawPlan.y_columns.map (resolveColumn · headers)
      let chartType := chartDecision reg ir rawPlan resolvedY.length
      finish ("Creating a " ++ chartType ++ " chart.")
        [{ stepNumber := 1
           action := "CREATE_CHART"
           description := "Creating " ++ chartType ++ " chart for "
                            ++ strOptOr rawPlan.chart_goal "undefined"
           params := .chart chartType (strOptOr rawPlan.title prompt) resolvedX
                       resolvedY reg.chartStyling }]
    else if ir.intent = "clean_data" then
      match rawPlan.operations with
      | none => invalidOps "clean_data"
      | some ops => finish "Cleaning sheet data." (compileCleanAux reg.cleanOps headers 0 ops)
    else if ir.intent = "organization" then
      match rawPlan.operations with
      | none => invalidOps "organization"
      | some ops => finish "Organizing sheet data." (compileOrgAux headers 0 ops)
    else
      finish "" []

/-! ## Step Executor (`src/Code.gs`)

The tabular store is a `List Row` of 1-based rows; `getRange` reads are
modelled by `drop`/`take`/`map` and a range write by `zipWith`-set.  Reading
a cell outside the grid yields `''`, as `getValues` does.  A `getRange`
whose row count would be non-positive is modelled as the empty read. -/

/-- One sheet row. -/
abbrev Row := List JsValue

/-- `columnLetterToIndex(letter)` from `src/Code.gs`: falsy input (absent or
empty) yields `1`; otherwise base-26 over `charCodeAt - 64` of the
upper-cased letters. -/
def columnLetterToIndex (letter : Option String) : Int :=
  match letter with
  | none => 1
  | some s =>
    if s = "" then 1
    else (jsToUpper s).data.foldl (fun r c => r * 26 + (c.toNat : Int) - 64) 0

/-- Read the cell of `row` at 1-based column index `col`. -/
def getCell (row : Row) (col : Int) : JsValue := row.getD (col - 1).toNat (.str "")

/-- Count of non-empty string-typed cells of a row (the header heuristic:
`cell !== '' && cell !== null && typeof cell === 'string'`). -/
def headerScore (r : Row) : Nat :=
  (r.filter (fun c => match c with | .str s => s ≠ "" | _ => false)).length

/-- The scan loop of `detectHeaderRow`: first row with the strictly highest
score wins (`>` keeps the earlier row on ties). -/
def detectAux : Nat → Nat → Nat → List Row → Nat
  | _, _, best, [] => best
  | i, maxC, best, r :: rs =>
    if headerScore r > maxC then detectAux (i + 1) (headerScore r) i rs
    else detectAux (i + 1) maxC best rs

/-- `detectHeaderRow(values)` from `src/Code.gs`: scan the first ten rows,
return the 0-based index of the row with the most non-empty string cells. -/
def detectHeaderRow (values : List Row) : Nat := detectAux 0 0 0 (values.take 10)

/-- 1-based first data row: detected header row (0-based) plus two. -/
def startRowOf (sheet : List Row) : Nat := detectHeaderRow sheet + 2

/-- The single-column read `getRange(startRow, col, lastRow - startRow + 1, 1)
.getValues()`. -/
def checkValuesOf (sheet : List Row) (col : Int) (startRow : Nat) : List JsValue :=
  (sheet.drop (startRow - 1)).map (fun r => getCell r col)

/-- Write `vals` into 0-based column `c` of the rows from 1-based `startRow`
on (`range.setValues`); `vals` always spans exactly the remaining rows at its
call sites. -/
def writeColumn (sheet : List Row) (c : Nat) (startRow : Nat) (vals : List JsValue) :
    List Row :=
  sheet.take (startRow - 1) ++
    List.zipWith (fun r v => r.set c v) (sheet.drop (startRow - 1)) vals

/-- Parameter record handed to an executor handler (`step.params`). -/
structure ExecParams where
  column : Option String := none
  operator : Option String := none
  value : JsValue := .undef
  condition : Option String := none
  operation : Option String := none
  fillValue : JsValue := .undef
  toType : Option String := none
  targetCell : Option String := none
  order : Option String := none
deriving DecidableEq, Repr

/-- `${x}` for a possibly-absent string. -/
def jsShowOpt : Option String → String
  | some s => s
  | none => "undefined"

/-- `(len / total * 100).toFixed(1)`, in integer tenths of a percent with
round half up: `⌊1000 * len / total + 1/2⌋ = (2000 * len + total) / (2 * total)`.
Every ratio the claims exercise is exact at one decimal, so the binary-float
rounding of the original cannot differ.  (The source then compares the
`toFixed` string against `50`/`80`, which coerces it back to a number;
`impact > 50` becomes `tenths > 500`.) -/
def impactTenths (len total : Nat) : Nat := (2000 * len + total) / (2 * total)

/-- The text `toFixed(1)` produces, from the tenths value. -/
def showTenths (tenths : Nat) : String :=
  toString (tenths / 10) ++ "." ++ toString (tenths % 10)

/-- The match test of `filterData`'s operator switch (`src/Code.gs:582-614`).
An unrecognized operator leaves `isMatch` false. -/
def filterMatch (params : ExecParams) (val : JsValue) : Bool :=
  let checkVal := if val = .str "" ∨ val = .null then ""
                  else jsTrim (jsToLower (jsToString val))
  let paramVal := jsTrim (jsToLower (jsToString params.value))
  match params.operator with
  | some "equals" => checkVal = paramVal
  | some "not_equals" => checkVal ≠ paramVal
  | some "contains" => jsIncludes checkVal paramVal
  | some "not_contains" => ¬ jsIncludes checkVal paramVal
  | some "greater" =>
    match jsParseFloat val, jsParseFloat params.value with
    | some a, some b => a > b
    | _, _ => false
  | some "less" =>
    match jsParseFloat val, jsParseFloat params.value with
    | some a, some b => a < b
    | _, _ => false
  | some "empty" => val = .str "" ∨ val = .null
  | some "not_empty" => val ≠ .str "" ∧ val ≠ .null
  | _ => false

/-- A `forEach(([val], i) => ... push(startRow + i))` row collector, with a
scan state `σ` (trivial for the stateless conditions, the seen-set for the
duplicate scan).  `step` returns the delete decision and the next state. -/
def collectS {σ : Type} (step : σ → JsValue → Bool × σ) :
    σ → Nat → List JsValue → List Nat
  | _, _, [] => []
  | st, k, v :: vs =>
    let (d, st') := step st v
    if d then k :: collectS step st' (k + 1) vs
    else collectS step st' (k + 1) vs

/-- The rows the same scan keeps (decision `false`), stated over whole rows
through the column projection `f`. -/
def keepRowsS {σ : Type} (step : σ → JsValue → Bool × σ) (f : Row → JsValue) :
    σ → List Row → List Row
  | _, [] => []
  | st, r :: rs =>
    let (d, st') := step st (f r)
    if d then keepRowsS step f st' rs
    else r :: keepRowsS step f st' rs

/-- `rowsToDelete.sort((a, b) => b - a)`: sort into descending order. -/
def jsSortDesc (l : List Nat) : List Nat := l.insertionSort (· ≥ ·)

/-- `rowsToDelete.forEach(row => sheet.deleteRow(row))`: each deletion
renumbers the rows below it, exactly as `eraseIdx` on the list does. -/
def deleteDescending (sheet : List Row) (rows : List Nat) : List Row :=
  rows.foldl (fun s r => s.eraseIdx (r - 1)) sheet

/-- Delete decision of `filterData`: the row is deleted when it does *not*
match (`if (!isMatch) rowsToDelete.push(...)` — filter keeps the matches). -/
def filterStep (params : ExecParams) : Unit → JsValue → Bool × Unit :=
  fun _ v => (! filterMatch params v, ())

/-- The `rowsToDelete` list `filterData` builds. -/
def filterRowsToDelete (params : ExecParams) (sheet : List Row) : List Nat :=
  collectS (filterStep params) () (startRowOf sheet)
    (checkValuesOf sheet (columnLetterToIndex params.column) (startRowOf sheet))

/-- `filterData(params)` on a sheet: returns the mutated sheet and the result
message.  (The high-impact `console.warn` has no observable effect and is
omitted; the `>50%` annotation on the message is kept.) -/
def filterData (params : ExecParams) (sheet : List Row) : List Row × String :=
  let col := columnLetterToIndex params.column
  let lastRow := sheet.length
  let startRow := startRowOf sheet
  let _checkValues := checkValuesOf sheet col startRow
  let rowsToDelete := filterRowsToDelete params sheet
  let totalDataRows : Int := (lastRow : Int) - (startRow : Int) + 1
  let highImpact : Bool :=
    if totalDataRows > 0 then
      impactTenths rowsToDelete.length totalDataRows.toNat > 500
    else false
  if rowsToDelete.length = 0 then
    (sheet, "No rows found where " ++ jsShowOpt params.column ++ " "
              ++ jsShowOpt params.operator ++ " \"" ++ jsToString params.value ++ "\"")
  else
    let sorted := jsSortDesc rowsToDelete
    let newSheet := deleteDescending sheet sorted
    let resultMsg := "Kept rows where " ++ jsShowOpt params.column ++ " "
                       ++ jsShowOpt params.operator ++ " \""
                       ++ jsToString params.value ++ "\" (Deleted "
                       ++ toString rowsToDelete.length ++ " non-matching rows)"
    let resultMsg :=
      if highImpact then
        "⚠️ " ++ resultMsg ++ ". This removed more than half your data."
      else resultMsg
    (newSheet, resultMsg)

/-- The `shouldDelete` decision of `deleteRows` for the stateless conditions
(`empty`, `equals`; unknown conditions never delete — the `duplicate` scan is
`dupStep` below).  `deleteRows` compares without trimming. -/
def deleteRowsMatch (params : ExecParams) (v : JsValue) : Bool :=
  match params.condition with
  | some "empty" => v = .str "" ∨ v = .null
  | some "equals" => jsToLower (jsToString v) = jsToLower (jsToString params.value)
  | _ => false

/-- `deleteRowsMatch` as a stateless scan step. -/
def deleteRowsStep (params : ExecParams) : Unit → JsValue → Bool × Unit :=
  fun _ v => (deleteRowsMatch params v, ())

/-- The duplicate scan: a row is deleted when its case-folded value was
already seen above. -/
def dupStep : List String → JsValue → Bool × List String :=
  fun seen v =>
    let key := jsToLower (jsToString v)
    if key ∈ seen then (true, seen) else (false, key :: seen)

/-- The `rowsToDelete` list of `deleteRows` (built by `unshift`, hence
already descending; the model keeps the ascending scan and reverses). -/
def deleteRowsToDelete (params : ExecParams) (startRow : Nat)
    (checkValues : List JsValue) : List Nat :=
  if params.condition = some "duplicate" then
    (collectS dupStep [] startRow checkValues).reverse
  else
    (collectS (deleteRowsStep params) () startRow checkValues).reverse

/-- `deleteRows(params)` on a sheet: sheet plus result message. -/
def deleteRows (params : ExecParams) (sheet : List Row) : List Row × String :=
  let col := columnLetterToIndex params.column
  let lastRow := sheet.length
  let startRow := startRowOf sheet
  let checkValues := checkValuesOf sheet col startRow
  let rowsToDelete := deleteRowsToDelete params startRow checkValues
  let totalDataRows : Int := (lastRow : Int) - (startRow : Int) + 1
  let highImpact : Bool :=
    if totalDataRows > 0 then
      impactTenths rowsToDelete.length totalDataRows.toNat > 500
    else false
  let impactStr :=
    if totalDataRows > 0 then
      showTenths (impactTenths rowsToDelete.length totalDataRows.toNat)
    else "0"
  if rowsToDelete.length = 0 then (sheet, "No matching rows found to delete")
  else
    let sorted := jsSortDesc rowsToDelete
    let newSheet := deleteDescending sheet sorted
    let resultMsg := "Deleted " ++ toString rowsToDelete.length ++ " rows ("
                       ++ impactStr
                       ++ "% of data) based on " ++ jsShowOpt params.condition
    let resultMsg :=
      if highImpact then
        "⚠️ " ++ resultMsg ++ ". This removed more than half your data."
      else resultMsg
    (newSheet, resultMsg)

/-- `deleteColumn(params)`: removes the addressed column from every row. -/
def deleteColumn (params : ExecParams) (sheet : List Row) : List Row × String :=
  let col := columnLetterToIndex params.column
  (sheet.map (fun r => r.eraseIdx (col - 1).toNat),
   "Deleted column " ++ jsShowOpt params.column)

/-- `String(v).replace(/[$,]/g, '')`. -/
def stripDollarComma (s : String) : String :=
  ⟨s.data.filter (fun c => ¬ (c = '$' ∨ c = ','))⟩

/-- The per-value transformation of `cleanData`'s operation switch.  (In
`convert_to_number` the source stores the parsed float; the integer value
model keeps the cell unchanged in the non-integral case, which no claim
exercises.) -/
def cleanValue (params : ExecParams) (v : JsValue) : JsValue :=
  match params.operation with
  | some "trim" => .str (jsTrim (jsToString v))
  | some "trim_whitespace" => .str (jsTrim (jsToString v))
  | some "uppercase" => .str (jsToUpper (jsToString v))
  | some "lowercase" => .str (jsToLower (jsToString v))
  | some "convert_to_number" =>
    match parseFloatStr (stripDollarComma (jsToString v)) with
    | some q => if q.den = 1 then .num q.num else v
    | none => v
  | some "fill_missing_values" =>
    if v = .str "" ∨ v = .null then
      if jsTruthy params.fillValue then params.fillValue else .num 0
    else v
  | _ => v

/-- `cleanData(params)` on a sheet: reads the addressed column from the first
data row on, rewrites it cell by cell, writes it back. -/
def cleanData (params : ExecParams) (sheet : List Row) : List Row × String :=
  let col := columnLetterToIndex params.column
  let startRow := startRowOf sheet
  let checkValues := checkValuesOf sheet col startRow
  let cleaned := checkValues.map (cleanValue params)
  (writeColumn sheet (col - 1).toNat startRow cleaned,
   "Cleaned column " ++ jsShowOpt params.column ++ " ("
     ++ jsShowOpt params.operation ++ ")")

/-- `convertDataType(params)`: rewrites the addressed column from row 2 to
the last row.  The conversion body (`parseFloat(val) || 0`, `String(val)`,
`new Date(val)`) is abstracted into `convert`, applied to the `toType` tag:
two of its three branches leave the integer value model (floats, dates). -/
def convertDataType (convert : String → JsValue → JsValue) (params : ExecParams)
    (sheet : List Row) : List Row × String :=
  let col := columnLetterToIndex params.column
  let values := checkValuesOf sheet col 2
  let converted := values.map (convert (jsShowOpt params.toType))
  (writeColumn sheet (col - 1).toNat 2 converted,
   "Converted column " ++ jsShowOpt params.column ++ " to " ++ jsShowOpt params.toType)

/-- `sortData(params)`: sorts the data region below the detected header by
the addressed column.  The store's `range.sort` is abstracted into `sorter`,
receiving the 0-based column index and the ascending flag. -/
def sortData (sorter : Nat → Bool → List Row → List Row) (params : ExecParams)
    (sheet : List Row) : List Row × String :=
  let col := columnLetterToIndex params.column
  let startRow := startRowOf sheet
  let lastRow := sheet.length
  if lastRow < startRow then (sheet, "Not enough data to sort")
  else
    (sheet.take (startRow - 1) ++
       sorter (col - 1).toNat (params.order = some "asc") (sheet.drop (startRow - 1)),
     "Sorted data by column " ++ jsShowOpt params.column ++ " ("
       ++ jsShowOpt params.order ++ ")")

/-- `aggregate(params)`: the formula text written into `params.targetCell`.
The computed `col = columnLetterToIndex(params.column)` is *unused* in the
source — the formula interpolates `params.column` itself. -/
def aggregate (params : ExecParams) (sheet : List Row) : Option String :=
  let startRow := startRowOf sheet
  let lastRow := sheet.length
  let colLetter := jsShowOpt params.column
  let range := colLetter ++ toString startRow ++ ":" ++ colLetter ++ toString lastRow
  match params.operation with
  | some "sum" => some ("=SUM(" ++ range ++ ")")
  | some "average" => some ("=AVERAGE(" ++ range ++ ")")
  | some "count" => some ("=COUNT(" ++ range ++ ")")
  | some "min" => some ("=MIN(" ++ range ++ ")")
  | some "max" => some ("=MAX(" ++ range ++ ")")
  | _ => none

/-- One entry of `stepResults`: step number, action, description, a
`success`/`error` status and the result or error text. -/
structure StepResultEntry where
  step : Nat
  action : String
  description : String
  status : String
  payload : String
deriving DecidableEq, Repr

/-- The entry `executePlan` records for a step, from the step's outcome. -/
def mkEntry (s : Step) : Except String String → StepResultEntry
  | .ok r => ⟨s.stepNumber, s.action, s.description, "success", r⟩
  | .error e => ⟨s.stepNumber, s.action, s.description, "error", e⟩

/-- A plan as the executor receives it. -/
structure PlanS where
  summary : Option String
  steps : List Step

/-- The result `executePlan` returns. -/
structure ExecutionResult where
  summary : String
  stepResults : List StepResultEntry
deriving DecidableEq, Repr

/-- The `for (const step of plan.steps)` loop: `executeAction` (abstracted
into `exec`, which may mutate the sheet or throw) runs inside a `try`;
a throw yields an error entry and the loop continues on the unchanged sheet.
Returns the entries, the final sheet and the success count. -/
def execPlanAux (exec : Step → List Row → Except String (String × List Row)) :
    List Row → List Step → List StepResultEntry × List Row × Nat
  | sheet, [] => ([], sheet, 0)
  | sheet, s :: ss =>
    match exec s sheet with
    | .ok (r, sheet') =>
      let (es, shf, c) := execPlanAux exec sheet' ss
      (mkEntry s (.ok r) :: es, shf, c + 1)
    | .error e =>
      let (es, shf, c) := execPlanAux exec sheet ss
      (mkEntry s (.error e) :: es, shf, c)

/-- `executePlan(plan)` from `src/Code.gs`. -/
def executePlan (exec : Step → List Row → Except String (String × List Row))
    (plan : PlanS) (sheet : List Row) : ExecutionResult :=
  if plan.steps = [] then { summary := "", stepResults := [] }
  else
    let (entries, _, successCount) := execPlanAux exec sheet plan.steps
    { summary := strOptOr plan.summary "Operation complete."
                   ++ "\n\nExecution status: " ++ toString successCount ++ " of "
                   ++ toString plan.steps.length ++ " items processed correctly."
      stepResults := entries }


/-! ## Lemmas: trimming -/

theorem dropWhile_dropWhile_same {α : Type} (p : α → Bool) (l : List α) :
    (l.dropWhile p).dropWhile p = l.dropWhile p := by
  induction l with
  | nil => rfl
  | cons a t ih =>
    by_cases h : p a
    · simpa [List.dropWhile_cons, h] using ih
    · simp [List.dropWhile_cons, h]

theorem dropWhile_eq_self_of_not {α : Type} (p : α → Bool) (l : List α)
    (h : ∀ c ∈ l.head?, p c = false) : l.dropWhile p = l := by
  cases l with
  | nil => rfl
  | cons a t => simp_all [List.dropWhile_cons]

theorem trimLeftL_head (l : List Char) (c : Char)
    (h : (trimLeftL l).head? = some c) : jsWS c = false := by
  have := List.head?_dropWhile_not jsWS l
  unfold trimLeftL at h
  rw [h] at this
  exact this

/-- Right-trimming leaves trailing whitespace impossible: the head of the
reverse fails the predicate. -/
theorem trimRightL_reverse_head (l : List Char) (c : Char)
    (h : (trimRightL l).reverse.head? = some c) : jsWS c = false := by
  have := List.head?_dropWhile_not jsWS l.reverse
  unfold trimRightL at h
  rw [List.reverse_reverse] at h
  rw [h] at this
  exact this

theorem trimRightL_idem (l : List Char) : trimRightL (trimRightL l) = trimRightL l := by
  unfold trimRightL
  rw [List.reverse_reverse, dropWhile_dropWhile_same]

/-- `trimRightL` is a prefix of its input. -/
theorem trimRightL_isPrefix (l : List Char) : trimRightL l <+: l := by
  unfold trimRightL
  rw [show l = l.reverse.reverse from (List.reverse_reverse l).symm]
  rw [List.reverse_reverse]
  exact (List.reverse_prefix).mpr (List.dropWhile_suffix jsWS)

theorem trimLeftL_trimRightL (l : List Char) :
    trimLeftL (trimRightL (trimLeftL l)) = trimRightL (trimLeftL l) := by
  apply dropWhile_eq_self_of_not
  intro c hc
  rcases (trimRightL_isPrefix (trimLeftL l)) with ⟨t, ht⟩
  apply trimLeftL_head l
  cases h1 : trimRightL (trimLeftL l) with
  | nil => rw [h1] at hc; simp at hc
  | cons a r =>
    rw [h1] at hc
    simp only [List.head?_cons, Option.mem_def, Option.some.injEq] at hc
    rw [← ht, h1]
    simp [hc]

/-- `trim` is idempotent. -/
theorem jsTrim_idem (s : String) : jsTrim (jsTrim s) = jsTrim s := by
  unfold jsTrim
  congr 1
  show trimRightL (trimLeftL (trimRightL (trimLeftL s.data)))
      = trimRightL (trimLeftL s.data)
  rw [trimLeftL_trimRightL, trimRightL_idem]

theorem dropWhile_eq_self_of_all {α : Type} (p : α → Bool) (l : List α)
    (h : ∀ c ∈ l, p c = false) : l.dropWhile p = l := by
  cases l with
  | nil => rfl
  | cons a t => simp [List.dropWhile_cons, h a (by simp)]

/-- Trimming a list with no whitespace anywhere is the identity. -/
theorem jsTrim_eq_self_of_no_ws (s : String) (h : ∀ c ∈ s.data, jsWS c = false) :
    jsTrim s = s := by
  have h1 : s.data.dropWhile jsWS = s.data := dropWhile_eq_self_of_all _ _ h
  have h2 : s.data.reverse.dropWhile jsWS = s.data.reverse :=
    dropWhile_eq_self_of_all _ _ (fun c hc => h c (List.mem_reverse.mp hc))
  unfold jsTrim trimLeftL trimRightL
  rw [h1, h2, List.reverse_reverse]

/-! ## Lemmas: descending deletion against a renumbering store

`keepAux S k l` is the reference semantics "drop the rows of `l` (numbered
from `k`) whose row number lies in `S`"; the lemmas connect the executor's
fold of `deleteRow` over a descending index list to it. -/

/-- Reference complement operator: keep the rows (numbered from `k` on) whose
number is not in `S`. -/
def keepAux {α : Type} (S : List Nat) : Nat → List α → List α
  | _, [] => []
  | k, x :: xs => if k ∈ S then keepAux S (k + 1) xs else x :: keepAux S (k + 1) xs

theorem keepAux_of_all_lt {α : Type} (S : List Nat) (k : Nat) (l : List α)
    (h : ∀ s ∈ S, s < k) : keepAux S k l = l := by
  induction l generalizing k with
  | nil => rfl
  | cons x xs ih =>
    have hk : k ∉ S := fun hm => absurd (h k hm) (lt_irrefl k)
    simp only [keepAux, if_neg hk]
    rw [ih (k + 1) (fun s hs => Nat.lt_succ_of_lt (h s hs))]

theorem keepAux_cons_lt {α : Type} (a : Nat) (S : List Nat) (k : Nat) (l : List α)
    (h : a < k) : keepAux (a :: S) k l = keepAux S k l := by
  induction l generalizing k with
  | nil => rfl
  | cons x xs ih =>
    have : (k ∈ a :: S) = (k ∈ S) := by
      simp only [List.mem_cons, eq_iff_iff]
      exact or_iff_right (fun he => absurd (he ▸ h) (lt_irrefl k))
    simp only [keepAux, this]
    rw [ih (k + 1) (Nat.lt_succ_of_lt h)]

theorem keepAux_congr {α : Type} (S T : List Nat) (k : Nat) (l : List α)
    (h : ∀ x, x ∈ S ↔ x ∈ T) : keepAux S k l = keepAux T k l := by
  induction l generalizing k with
  | nil => rfl
  | cons x xs ih =>
    by_cases hk : k ∈ S
    · simp only [keepAux, if_pos hk, if_pos ((h k).mp hk)]
      exact ih (k + 1)
    · simp only [keepAux, if_neg hk, if_neg (fun hT => hk ((h k).mpr hT))]
      rw [ih (k + 1)]

/-- Erasing row `r` (counting from `k`) commutes into the reference
semantics, when every other doomed row lies above it. -/
theorem keepAux_eraseIdx {α : Type} (l : List α) (k r : Nat) (S : List Nat)
    (hkr : k ≤ r) (hlen : r - k < l.length) (hS : ∀ s ∈ S, s < r) :
    keepAux S k (l.eraseIdx (r - k)) = keepAux (r :: S) k l := by
  induction l generalizing k with
  | nil => simp at hlen
  | cons x xs ih =>
    rcases Nat.eq_or_lt_of_le hkr with heq | hlt
    · subst heq
      simp only [Nat.sub_self, List.eraseIdx_zero, List.tail_cons]
      rw [keepAux_of_all_lt S k xs hS]
      have hk : k ∈ k :: S := List.mem_cons_self k S
      simp only [keepAux, if_pos hk]
      rw [keepAux_of_all_lt (k :: S) (k + 1) xs]
      intro s hs
      rcases List.mem_cons.mp hs with h1 | h1
      · omega
      · exact Nat.lt_succ_of_lt (hS s h1)
    · have hrk : r - k = (r - (k + 1)) + 1 := by omega
      rw [hrk]
      simp only [List.eraseIdx_cons_succ]
      have hknr : (k ∈ r :: S) = (k ∈ S) := by
        simp only [List.mem_cons, eq_iff_iff]
        exact or_iff_right (fun he => absurd he (by omega))
      have hlen2 : r - (k + 1) < xs.length := by
        simp only [List.length_cons] at hlen
        omega
      have ihx := ih (k + 1) hlt hlen2
      by_cases hk : k ∈ S
      · simp only [keepAux, if_pos hk, hknr, ihx]
      · simp only [keepAux, if_neg hk, hknr, ihx]

/-- Folding `deleteRow` over a strictly descending list of in-range 1-based
row numbers removes exactly those rows. -/
theorem deleteDescending_eq_keepAux (rows : List Nat) (sheet : List Row)
    (hdesc : rows.Pairwise (· > ·))
    (hbound : ∀ s ∈ rows, 1 ≤ s ∧ s ≤ sheet.length) :
    deleteDescending sheet rows = keepAux rows 1 sheet := by
  induction rows generalizing sheet with
  | nil =>
    simp only [deleteDescending, List.foldl_nil]
    rw [keepAux_of_all_lt [] 1 sheet (by simp)]
  | cons r rest ih =>
    obtain ⟨hr1, hrlen⟩ := hbound r (List.mem_cons_self r rest)
    have hrest : ∀ s ∈ rest, s < r := fun s hs =>
      (List.pairwise_cons.mp hdesc).1 s hs
    have step : deleteDescending sheet (r :: rest)
        = deleteDescending (sheet.eraseIdx (r - 1)) rest := rfl
    have hlen1 : (sheet.eraseIdx (r - 1)).length + 1 = sheet.length :=
      List.length_eraseIdx_add_one (by omega)
    have hbound2 : ∀ s ∈ rest, 1 ≤ s ∧ s ≤ (sheet.eraseIdx (r - 1)).length := by
      intro s hs
      have h3 := hrest s hs
      have h2 := (hbound s (List.mem_cons_of_mem r hs)).1
      omega
    rw [step, ih (sheet.eraseIdx (r - 1)) (List.pairwise_cons.mp hdesc).2 hbound2]
    exact keepAux_eraseIdx sheet 1 r rest hr1 (by omega) hrest

theorem pairwise_gt_of_ge_nodup (l : List Nat)
    (h1 : l.Pairwise (· ≥ ·)) (h2 : l.Nodup) : l.Pairwise (· > ·) := by
  induction l with
  | nil => exact List.Pairwise.nil
  | cons a t ih =>
    rw [List.pairwise_cons] at h1 ⊢
    rw [List.nodup_cons] at h2
    refine ⟨fun b hb => ?_, ih h1.2 h2.2⟩
    exact lt_of_le_of_ne (h1.1 b hb) (fun he => h2.1 (he ▸ hb))

theorem jsSortDesc_perm (l : List Nat) : List.Perm (jsSortDesc l) l :=
  List.perm_insertionSort _ l

theorem jsSortDesc_pairwise_gt (l : List Nat) (h : l.Nodup) :
    (jsSortDesc l).Pairwise (· > ·) :=
  pairwise_gt_of_ge_nodup _ (List.sorted_insertionSort (· ≥ ·) l)
    ((jsSortDesc_perm l).nodup_iff.mpr h)

/-! ## Lemmas: the row collectors -/

theorem collectS_bounds {σ : Type} (step : σ → JsValue → Bool × σ)
    (vs : List JsValue) (st : σ) (k : Nat) :
    ∀ x ∈ collectS step st k vs, k ≤ x ∧ x < k + vs.length := by
  induction vs generalizing st k with
  | nil => intro x hx; simp [collectS] at hx
  | cons v t ih =>
    intro x hx
    simp only [collectS] at hx
    rcases hstep : step st v with ⟨d, st'⟩
    rw [hstep] at hx
    simp only [List.length_cons]
    by_cases hd : d
    · rw [if_pos (by simpa using hd)] at hx
      rcases List.mem_cons.mp hx with h1 | h1
      · omega
      · have := ih st' (k + 1) x h1
        omega
    · rw [if_neg (by simpa using hd)] at hx
      have := ih st' (k + 1) x hx
      omega

theorem collectS_pairwise_lt {σ : Type} (step : σ → JsValue → Bool × σ)
    (vs : List JsValue) (st : σ) (k : Nat) :
    (collectS step st k vs).Pairwise (· < ·) := by
  induction vs generalizing st k with
  | nil => exact List.Pairwise.nil
  | cons v t ih =>
    simp only [collectS]
    rcases hstep : step st v with ⟨d, st'⟩
    by_cases hd : d
    · rw [if_pos (by simpa using hd)]
      rw [List.pairwise_cons]
      refine ⟨fun x hx => ?_, ih st' (k + 1)⟩
      have := collectS_bounds step t st' (k + 1) x hx
      omega
    · rw [if_neg (by simpa using hd)]
      exact ih st' (k + 1)

theorem collectS_nodup {σ : Type} (step : σ → JsValue → Bool × σ)
    (vs : List JsValue) (st : σ) (k : Nat) :
    (collectS step st k vs).Nodup :=
  (collectS_pairwise_lt step vs st k).imp Nat.ne_of_lt

/-- The scan's keep-set is the reference complement of its delete-set:
`keepAux` over the collected row numbers equals `keepRowsS`. -/
theorem keepAux_collectS {σ : Type} (step : σ → JsValue → Bool × σ)
    (f : Row → JsValue) (rows : List Row) (st : σ) (k : Nat) :
    keepAux (collectS step st k (rows.map f)) k rows = keepRowsS step f st rows := by
  induction rows generalizing st k with
  | nil => rfl
  | cons r rs ih =>
    simp only [List.map_cons, collectS, keepRowsS]
    rcases hstep : step st (f r) with ⟨d, st'⟩
    by_cases hd : d
    · rw [if_pos (by simpa using hd), if_pos (by simpa using hd)]
      have hk : k ∈ k :: collectS step st' (k + 1) (rs.map f) :=
        List.mem_cons_self _ _
      simp only [keepAux, if_pos hk]
      rw [keepAux_cons_lt k _ (k + 1) rs (Nat.lt_succ_self k)]
      exact ih st' (k + 1)
    · rw [if_neg (by simpa using hd), if_neg (by simpa using hd)]
      have hk : k ∉ collectS step st' (k + 1) (rs.map f) := by
        intro hm
        have := collectS_bounds step (rs.map f) st' (k + 1) k hm
        omega
      simp only [keepAux, if_neg hk]
      rw [ih st' (k + 1)]

/-- Rows numbered below every member of `S` are untouched: the reference
semantics splits at any cut `m` below the smallest member. -/
theorem keepAux_split {α : Type} (m : Nat) (l : List α) (S : List Nat) (k : Nat)
    (h : ∀ s ∈ S, k + m ≤ s) :
    keepAux S k l = l.take m ++ keepAux S (k + m) (l.drop m) := by
  induction m generalizing k l with
  | zero => simp
  | succ n ih =>
    cases l with
    | nil => simp [keepAux]
    | cons x xs =>
      have hk : k ∉ S := fun hm => by have := h k hm; omega
      simp only [keepAux, if_neg hk, List.take_succ_cons, List.drop_succ_cons,
        List.cons_append]
      rw [ih xs (k + 1) (fun s hs => by have := h s hs; omega)]
      have harith : k + 1 + n = k + (n + 1) := by omega
      rw [harith]

/-- A stateless scan keeps exactly the filter of the negated decision. -/
theorem keepRowsS_stateless (p : JsValue → Bool) (f : Row → JsValue)
    (rows : List Row) :
    keepRowsS (fun _ v => (p v, ())) f () rows = rows.filter (fun r => ! p (f r)) := by
  induction rows with
  | nil => rfl
  | cons r rs ih =>
    simp only [keepRowsS, List.filter_cons]
    by_cases hd : p (f r)
    · simp [hd, ih]
    · simp [hd, ih]

/-- Master lemma: sorting any duplicate-free enumeration of the scan's
delete-set into descending order and folding `deleteRow` over it leaves
exactly the untouched prefix plus the scan's keep-rows. -/
theorem deleteDescending_scan {σ : Type} (step : σ → JsValue → Bool × σ)
    (f : Row → JsValue) (sheet : List Row) (st : σ) (sr : Nat) (rows : List Nat)
    (hsr : 1 ≤ sr)
    (hmem : ∀ x, x ∈ rows ↔ x ∈ collectS step st sr ((sheet.drop (sr - 1)).map f))
    (hnodup : rows.Nodup) :
    deleteDescending sheet (jsSortDesc rows)
      = sheet.take (sr - 1) ++ keepRowsS step f st (sheet.drop (sr - 1)) := by
  have hdlen : (sheet.drop (sr - 1)).length = sheet.length - (sr - 1) :=
    List.length_drop _ _
  have hbound : ∀ x ∈ rows, sr ≤ x ∧ x < sr + (sheet.drop (sr - 1)).length := by
    intro x hx
    have h1 := collectS_bounds step _ st sr x ((hmem x).mp hx)
    rwa [List.length_map] at h1
  have hsorted := jsSortDesc_pairwise_gt rows hnodup
  have hmemS : ∀ x, x ∈ jsSortDesc rows ↔ x ∈ rows := fun x =>
    (jsSortDesc_perm rows).mem_iff
  rw [deleteDescending_eq_keepAux (jsSortDesc rows) sheet hsorted ?bnd]
  case bnd =>
    intro s hs
    have := hbound s ((hmemS s).mp hs)
    omega
  rw [keepAux_congr (jsSortDesc rows) rows 1 sheet hmemS]
  rw [keepAux_congr rows _ 1 sheet hmem]
  rw [keepAux_split (sr - 1) sheet _ 1 ?cut]
  case cut =>
    intro s hs
    have := collectS_bounds step _ st sr s hs
    omega
  rw [show 1 + (sr - 1) = sr from by omega]
  rw [keepAux_collectS]


/-! ## Lemmas: handler-level complement equations -/

theorem startRowOf_pos (sheet : List Row) : 1 ≤ startRowOf sheet := by
  unfold startRowOf
  omega

/-- `filterData` leaves the pre-data prefix plus exactly the *matching* data
rows: the deleted set is the non-matching rows. -/
theorem filterData_fst (params : ExecParams) (sheet : List Row) :
    (filterData params sheet).1
      = sheet.take (startRowOf sheet - 1)
        ++ (sheet.drop (startRowOf sheet - 1)).filter
             (fun r => filterMatch params (getCell r (columnLetterToIndex params.column))) := by
  have hscan := deleteDescending_scan (filterStep params)
    (fun r => getCell r (columnLetterToIndex params.column)) sheet ()
    (startRowOf sheet) (filterRowsToDelete params sheet) (startRowOf_pos sheet)
    (fun x => Iff.rfl)
    (collectS_nodup _ _ _ _)
  have hkeep : keepRowsS (filterStep params)
      (fun r => getCell r (columnLetterToIndex params.column)) ()
      (sheet.drop (startRowOf sheet - 1))
      = (sheet.drop (startRowOf sheet - 1)).filter
          (fun r => filterMatch params (getCell r (columnLetterToIndex params.column))) := by
    have h := keepRowsS_stateless (fun v => ! filterMatch params v)
      (fun r => getCell r (columnLetterToIndex params.column))
      (sheet.drop (startRowOf sheet - 1))
    simp only [Bool.not_not] at h
    exact h
  simp only [filterData]
  split
  · next hz =>
      have hnil : filterRowsToDelete params sheet = [] := List.length_eq_zero.mp hz
      show sheet = _
      rw [← hkeep, ← hscan, hnil]
      rfl
  · next hz =>
      show deleteDescending sheet (jsSortDesc (filterRowsToDelete params sheet)) = _
      rw [hscan, hkeep]

/-- `deleteRows` under `empty`/`equals` (or any non-`duplicate` condition)
removes exactly the matching rows: the remainder is the untouched prefix plus
the non-matching data rows. -/
theorem deleteRows_fst_nondup (params : ExecParams) (sheet : List Row)
    (h : params.condition ≠ some "duplicate") :
    (deleteRows params sheet).1
      = sheet.take (startRowOf sheet - 1)
        ++ (sheet.drop (startRowOf sheet - 1)).filter
             (fun r => ! deleteRowsMatch params
                          (getCell r (columnLetterToIndex params.column))) := by
  have hrows : deleteRowsToDelete params (startRowOf sheet)
      (checkValuesOf sheet (columnLetterToIndex params.column) (startRowOf sheet))
      = (collectS (deleteRowsStep params) () (startRowOf sheet)
          (checkValuesOf sheet (columnLetterToIndex params.column)
            (startRowOf sheet))).reverse := by
    unfold deleteRowsToDelete
    rw [if_neg h]
  have hscan := deleteDescending_scan (deleteRowsStep params)
    (fun r => getCell r (columnLetterToIndex params.column)) sheet ()
    (startRowOf sheet)
    (deleteRowsToDelete params (startRowOf sheet)
      (checkValuesOf sheet (columnLetterToIndex params.column) (startRowOf sheet)))
    (startRowOf_pos sheet)
    (by intro x; rw [hrows]; exact List.mem_reverse)
    (by rw [hrows]; exact List.nodup_reverse.mpr (collectS_nodup _ _ _ _))
  have hkeep : keepRowsS (deleteRowsStep params)
      (fun r => getCell r (columnLetterToIndex params.column)) ()
      (sheet.drop (startRowOf sheet - 1))
      = (sheet.drop (startRowOf sheet - 1)).filter
          (fun r => ! deleteRowsMatch params
                       (getCell r (columnLetterToIndex params.column))) :=
    keepRowsS_stateless (deleteRowsMatch params) _ _
  simp only [deleteRows]
  split
  · next hz =>
      have hnil := List.length_eq_zero.mp hz
      show sheet = _
      rw [← hkeep, ← hscan, hnil]
      rfl
  · next hz =>
      show deleteDescending sheet (jsSortDesc _) = _
      rw [hscan, hkeep]

/-- `deleteRows` under the `duplicate` condition keeps exactly the first
occurrence of each case-folded value: the remainder is the untouched prefix
plus the duplicate scan's keep-rows. -/
theorem deleteRows_fst_dup (params : ExecParams) (sheet : List Row)
    (h : params.condition = some "duplicate") :
    (deleteRows params sheet).1
      = sheet.take (startRowOf sheet - 1)
        ++ keepRowsS dupStep
             (fun r => getCell r (columnLetterToIndex params.column)) []
             (sheet.drop (startRowOf sheet - 1)) := by
  have hrows : deleteRowsToDelete params (startRowOf sheet)
      (checkValuesOf sheet (columnLetterToIndex params.column) (startRowOf sheet))
      = (collectS dupStep [] (startRowOf sheet)
          (checkValuesOf sheet (columnLetterToIndex params.column)
            (startRowOf sheet))).reverse := by
    unfold deleteRowsToDelete
    rw [if_pos h]
  have hscan := deleteDescending_scan dupStep
    (fun r => getCell r (columnLetterToIndex params.column)) sheet []
    (startRowOf sheet)
    (deleteRowsToDelete params (startRowOf sheet)
      (checkValuesOf sheet (columnLetterToIndex params.column) (startRowOf sheet)))
    (startRowOf_pos sheet)
    (by intro x; rw [hrows]; exact List.mem_reverse)
    (by rw [hrows]; exact List.nodup_reverse.mpr (collectS_nodup _ _ _ _))
  simp only [deleteRows]
  split
  · next hz =>
      have hnil := List.length_eq_zero.mp hz
      show sheet = _
      rw [← hscan, hnil]
      rfl
  · next hz =>
      show deleteDescending sheet (jsSortDesc _) = _
      rw [hscan]

/-! ## Lemmas: step numbering in the compiler loops -/

/-- Whether a calculation item survives the skip checks (supported pattern,
all required parameters present); independent of its position. -/
def calcOk (registry : List (String × PatternDef)) (cal : Calc) : Bool :=
  match registry.lookup cal.pattern with
  | none => false
  | some pd => pd.required_params.all (paramDefined cal.parameters)

theorem mkCalcStep_stepNumber (registry : List (String × PatternDef))
    (headers : List Header) (wrapFlag : Bool) (idx : Nat) (cal : Calc) (s : Step)
    (h : mkCalcStep registry headers wrapFlag idx cal = some s) :
    s.stepNumber = idx + 1 := by
  unfold mkCalcStep at h
  split at h
  · exact absurd h (by simp)
  · split at h
    · split at h <;> (simp only [Option.some.injEq] at h; subst h; rfl)
    · exact absurd h (by simp)

theorem mkCalcStep_isSome (registry : List (String × PatternDef))
    (headers : List Header) (wrapFlag : Bool) (idx : Nat) (cal : Calc) :
    (mkCalcStep registry headers wrapFlag idx cal).isSome = calcOk registry cal := by
  unfold mkCalcStep calcOk
  split
  · rfl
  · split
    · next hr =>
        rw [hr]
        split <;> rfl
    · next hr =>
        simp only [Option.isSome_none]
        exact (Bool.eq_false_iff.mpr hr).symm

theorem compileCalcsAux_stepNumber_bounds (registry : List (String × PatternDef))
    (headers : List Header) (wrapFlag : Bool) (calcs : List Calc) (idx : Nat) :
    ∀ s ∈ compileCalcsAux registry headers wrapFlag idx calcs,
      idx + 1 ≤ s.stepNumber ∧ s.stepNumber ≤ idx + calcs.length := by
  induction calcs generalizing idx with
  | nil => intro s hs; simp [compileCalcsAux] at hs
  | cons c cs ih =>
    intro s hs
    simp only [compileCalcsAux] at hs
    rcases hm : mkCalcStep registry headers wrapFlag idx c with _ | s0
    · rw [hm] at hs
      have := ih (idx + 1) s hs
      simp only [List.length_cons]
      omega
    · rw [hm] at hs
      rcases List.mem_cons.mp hs with h1 | h1
      · subst h1
        have := mkCalcStep_stepNumber registry headers wrapFlag idx c s hm
        simp only [List.length_cons]
        omega
      · have := ih (idx + 1) s h1
        simp only [List.length_cons]
        omega

theorem compileCalcsAux_pairwise (registry : List (String × PatternDef))
    (headers : List Header) (wrapFlag : Bool) (calcs : List Calc) (idx : Nat) :
    (compileCalcsAux registry headers wrapFlag idx calcs).Pairwise
      (fun a b => a.stepNumber < b.stepNumber) := by
  induction calcs generalizing idx with
  | nil => exact List.Pairwise.nil
  | cons c cs ih =>
    simp only [compileCalcsAux]
    rcases hm : mkCalcStep registry headers wrapFlag idx c with _ | s0
    · exact ih (idx + 1)
    · rw [List.pairwise_cons]
      refine ⟨fun b hb => ?_, ih (idx + 1)⟩
      have h1 := mkCalcStep_stepNumber registry headers wrapFlag idx c s0 hm
      have h2 := compileCalcsAux_stepNumber_bounds registry headers wrapFlag cs (idx + 1) b hb
      omega

theorem compileCalcsAux_all_ok (registry : List (String × PatternDef))
    (headers : List Header) (wrapFlag : Bool) (calcs : List Calc) (idx : Nat)
    (h : ∀ cal ∈ calcs, calcOk registry cal = true) :
    (compileCalcsAux registry headers wrapFlag idx calcs).map Step.stepNumber
      = List.range' (idx + 1) calcs.length := by
  induction calcs generalizing idx with
  | nil => rfl
  | cons c cs ih =>
    simp only [compileCalcsAux]
    rcases hm : mkCalcStep registry headers wrapFlag idx c with _ | s0
    · have h1 := mkCalcStep_isSome registry headers wrapFlag idx c
      rw [hm, h c (List.mem_cons_self c cs)] at h1
      exact absurd h1 (by simp)
    · simp only [List.map_cons, List.length_cons, List.range'_succ]
      rw [mkCalcStep_stepNumber registry headers wrapFlag idx c s0 hm]
      rw [ih (idx + 1) (fun cal hc => h cal (List.mem_cons_of_mem c hc))]

theorem mkCleanStep_stepNumber (cleanOps : List String) (headers : List Header)
    (index : Nat) (op : Op) (s : Step)
    (h : mkCleanStep cleanOps headers index op = some s) : s.stepNumber = index + 1 := by
  unfold mkCleanStep at h
  split at h
  · simp only [Option.some.injEq] at h
    subst h
    rfl
  · exact absurd h (by simp)

theorem compileCleanAux_stepNumber_bounds (cleanOps : List String)
    (headers : List Header) (ops : List Op) (index : Nat) :
    ∀ s ∈ compileCleanAux cleanOps headers index ops,
      index + 1 ≤ s.stepNumber ∧ s.stepNumber ≤ index + ops.length := by
  induction ops generalizing index with
  | nil => intro s hs; simp [compileCleanAux] at hs
  | cons op t ih =>
    intro s hs
    simp only [compileCleanAux] at hs
    rcases hm : mkCleanStep cleanOps headers index op with _ | s0
    · rw [hm] at hs
      have := ih (index + 1) s hs
      simp only [List.length_cons]
      omega
    · rw [hm] at hs
      rcases List.mem_cons.mp hs with h1 | h1
      · subst h1
        have := mkCleanStep_stepNumber cleanOps headers index op s hm
        simp only [List.length_cons]
        omega
      · have := ih (index + 1) s h1
        simp only [List.length_cons]
        omega

theorem compileCleanAux_pairwise (cleanOps : List String) (headers : List Header)
    (ops : List Op) (index : Nat) :
    (compileCleanAux cleanOps headers index ops).Pairwise
      (fun a b => a.stepNumber < b.stepNumber) := by
  induction ops generalizing index with
  | nil => exact List.Pairwise.nil
  | cons op t ih =>
    simp only [compileCleanAux]
    rcases hm : mkCleanStep cleanOps headers index op with _ | s0
    · exact ih (index + 1)
    · rw [List.pairwise_cons]
      refine ⟨fun b hb => ?_, ih (index + 1)⟩
      have h1 := mkCleanStep_stepNumber cleanOps headers index op s0 hm
      have h2 := compileCleanAux_stepNumber_bounds cleanOps headers t (index + 1) b hb
      omega

theorem compileOrgAux_stepNumbers (headers : List Header) (ops : List Op)
    (index : Nat) :
    (compileOrgAux headers index ops).map Step.stepNumber
      = List.range' (index + 1) ops.length := by
  induction ops generalizing index with
  | nil => rfl
  | cons op t ih =>
    simp only [compileOrgAux, List.map_cons, List.length_cons, List.range'_succ]
    rw [ih (index + 1)]
    rfl

/-! ## Lemmas: COUNTIFS text structure -/

/-- Reference rendering of the criterion chunks: the separator `", "` sits
between consecutive chunks exactly. -/
def chunksJoin : List Criterion → String
  | [] => ""
  | c :: cs => ", " ++ countIfsChunk c ++ chunksJoin cs

/-- Reference rendering of a whole criteria list. -/
def chunksText : List Criterion → String
  | [] => ""
  | c :: cs => countIfsChunk c ++ chunksJoin cs

theorem countIfsAux_join (cs : List Criterion) :
    ∀ (acc : String) (idx : Nat), 1 ≤ idx →
      countIfsAux idx acc cs = acc ++ chunksJoin cs := by
  induction cs with
  | nil =>
    intro acc idx _
    simp [countIfsAux, chunksJoin]
  | cons c t ih =>
    intro acc idx hidx
    simp only [countIfsAux, chunksJoin]
    rw [if_pos (by omega : idx > 0)]
    rw [ih _ (idx + 1) (by omega)]
    simp [String.append_assoc]

theorem buildCountIfs_chunks (cs : List Criterion) :
    buildCountIfs cs = "=COUNTIFS(" ++ chunksText cs ++ ")" := by
  cases cs with
  | nil => rfl
  | cons c t =>
    unfold buildCountIfs
    simp only [countIfsAux, chunksText]
    rw [if_neg (by omega : ¬ (0 > 0))]
    rw [countIfsAux_join t _ 1 (le_refl 1)]
    simp [String.append_assoc]

/-- The quoting rule `buildCountIfs` actually implements: under any operator
other than `=` the rendered criterion is the operator-prefixed *string*, and
is therefore quoted; only under `=` does a numeric value stay unquoted. -/
theorem formatCriterion_cases (c : Criterion) :
    (mapOperator c.operator ≠ "=" →
       formatCriterion c = "\"" ++ (mapOperator c.operator ++ jsToString c.value) ++ "\"")
    ∧ (∀ s, mapOperator c.operator = "=" → c.value = .str s →
         formatCriterion c = "\"" ++ s ++ "\"")
    ∧ (∀ n, mapOperator c.operator = "=" → c.value = .num n →
         formatCriterion c = toString n) := by
  unfold formatCriterion criterionValue
  by_cases heq : mapOperator c.operator = "="
  · refine ⟨fun hne => absurd heq hne, fun s _ hv => ?_, fun n _ hv => ?_⟩
    · rw [if_pos heq, hv]
    · rw [if_pos heq, hv]
      rfl
  · refine ⟨fun _ => ?_, fun s hs _ => absurd hs heq, fun n hs _ => absurd hs heq⟩
    rw [if_neg heq]

/-! ## Lemmas: the execution loop -/

/-- The per-step outcome as the loop records it (the sheet change is not part
of the entry). -/
def toOutcome : Except String (String × List Row) → Except String String
  | .ok (r, _) => .ok r
  | .error e => .error e

/-- Placeholder entry for `getD`. -/
def defaultEntry : StepResultEntry := ⟨0, "", "", "", ""⟩

/-- Placeholder step for `getD`. -/
def defaultStep : Step := ⟨0, "", "", .kv []⟩

theorem execPlanAux_length (exec : Step → List Row → Except String (String × List Row)) :
    ∀ (steps : List Step) (sheet : List Row),
      (execPlanAux exec sheet steps).1.length = steps.length := by
  intro steps
  induction steps with
  | nil => intro sheet; rfl
  | cons s ss ih =>
    intro sheet
    simp only [execPlanAux]
    cases hx : exec s sheet with
    | ok p =>
      rcases p with ⟨r, sh'⟩
      rcases hab : execPlanAux exec sh' ss with ⟨es, rest⟩
      have h1 := ih sh'
      rw [hab] at h1
      simp only [hab]
      simp only [List.length_cons]
      simpa using h1
    | error e =>
      rcases hab : execPlanAux exec sheet ss with ⟨es, rest⟩
      have h1 := ih sheet
      rw [hab] at h1
      simp only [hab]
      simp only [List.length_cons]
      simpa using h1

theorem execPlanAux_get (exec : Step → List Row → Except String (String × List Row)) :
    ∀ (steps : List Step) (sheet : List Row) (i : Nat), i < steps.length →
      ∃ sh, (execPlanAux exec sheet steps).1.getD i defaultEntry
              = mkEntry (steps.getD i defaultStep)
                  (toOutcome (exec (steps.getD i defaultStep) sh)) := by
  intro steps
  induction steps with
  | nil => intro sheet i hi; simp at hi
  | cons s ss ih =>
    intro sheet i hi
    simp only [execPlanAux]
    cases hx : exec s sheet with
    | ok p =>
      rcases p with ⟨r, sh'⟩
      rcases hab : execPlanAux exec sh' ss with ⟨es, rest⟩
      cases i with
      | zero =>
        refine ⟨sheet, ?_⟩
        simp [hx, toOutcome, mkEntry]
      | succ j =>
        have hj : j < ss.length := by simpa using hi
        obtain ⟨sh, hsh⟩ := ih sh' j hj
        rw [hab] at hsh
        refine ⟨sh, ?_⟩
        simp only [hab]
        simpa using hsh
    | error e =>
      rcases hab : execPlanAux exec sheet ss with ⟨es, rest⟩
      cases i with
      | zero =>
        refine ⟨sheet, ?_⟩
        simp [hx, toOutcome, mkEntry]
      | succ j =>
        have hj : j < ss.length := by simpa using hi
        obtain ⟨sh, hsh⟩ := ih sheet j hj
        rw [hab] at hsh
        refine ⟨sh, ?_⟩
        simp only [hab]
        simpa using hsh

/-! ## Lemmas: letters are not whitespace -/

theorem not_ws_of_alpha (c : Char) (h : isAsciiLetter c = true) : jsWS c = false := by
  have h1 : c ≠ ' ' := fun he => by rw [he] at h; exact absurd h (by decide)
  have h2 : c ≠ '\t' := fun he => by rw [he] at h; exact absurd h (by decide)
  have h3 : c ≠ '\n' := fun he => by rw [he] at h; exact absurd h (by decide)
  have h4 : c ≠ '\r' := fun he => by rw [he] at h; exact absurd h (by decide)
  have h5 : c ≠ '\x0b' := fun he => by rw [he] at h; exact absurd h (by decide)
  have h6 : c ≠ '\x0c' := fun he => by rw [he] at h; exact absurd h (by decide)
  simp [jsWS, h1, h2, h3, h4, h5, h6]

/-! ## Claim theorems -/

/-- Claim C1, counterexample: on the claim's own input the count_ifs builder
does *not* produce `=COUNTIFS(A:A, "X", B:B, >10)` — the `greater` criterion
is string-concatenated (`` `${sheetOp}${c.value}` ``), so `>10` is a string
and gets quoted. -/
theorem c1_counterexample :
    buildCountIfs [⟨"A", some "equals", .str "X"⟩, ⟨"B", some "greater", .num 10⟩]
        = "=COUNTIFS(A:A, \"X\", B:B, \">10\")"
    ∧ buildCountIfs [⟨"A", some "equals", .str "X"⟩, ⟨"B", some "greater", .num 10⟩]
        ≠ "=COUNTIFS(A:A, \"X\", B:B, >10)" := by
  decide

/-- Claim C1 (amended): the builder returns
`=COUNTIFS(A:A, "X", B:B, ">10")` on the claim's input; in general the text
is `=COUNTIFS(` followed by `col:col, criterion` chunks joined by `", "`, a
string-typed criterion value is quoted, and a numeric criterion value stays
unquoted exactly when the mapped operator is `=` — under any other operator
the rendered criterion is the operator-prefixed string and is quoted. -/
theorem c1_countifs_quoting :
    buildCountIfs [⟨"A", some "equals", .str "X"⟩, ⟨"B", some "greater", .num 10⟩]
        = "=COUNTIFS(A:A, \"X\", B:B, \">10\")"
    ∧ (∀ cs : List Criterion, buildCountIfs cs = "=COUNTIFS(" ++ chunksText cs ++ ")")
    ∧ (∀ c : Criterion,
        (mapOperator c.operator ≠ "=" →
           formatCriterion c
             = "\"" ++ (mapOperator c.operator ++ jsToString c.value) ++ "\"")
        ∧ (∀ s, mapOperator c.operator = "=" → c.value = .str s →
             formatCriterion c = "\"" ++ s ++ "\"")
        ∧ (∀ n, mapOperator c.operator = "=" → c.value = .num n →
             formatCriterion c = toString n)) :=
  ⟨by decide, buildCountIfs_chunks, formatCriterion_cases⟩

/-- Claim C1, witness for the quoting dichotomy at concrete criteria: the
`greater`/`10` criterion renders quoted, the `equals`/`10` criterion renders
as a bare numeral. -/
theorem c1_countifs_quoting_witness :
    mapOperator (some "greater") ≠ "="
    ∧ formatCriterion ⟨"B", some "greater", .num 10⟩ = "\">10\""
    ∧ formatCriterion ⟨"A", some "equals", .num 10⟩ = "10" :=
  ⟨by decide,
   ((c1_countifs_quoting.2.2 ⟨"B", some "greater", .num 10⟩).1 (by decide)).trans
     (by decide),
   ((c1_countifs_quoting.2.2 ⟨"A", some "equals", .num 10⟩).2.2 10 (by decide)
     rfl).trans (by decide)⟩

/-- Claim C2, counterexample: `filterData` with condition `A equals "x"` on a
header row plus data `"x"`, `"y"` *keeps* the matching row and removes the
non-matching one, so the set of removed rows is the complement of the matched
set — not the matched set itself, as the claim's parenthetical demands (which
would leave `[[h], [y]]`). -/
theorem c2_counterexample :
    (filterData { column := some "A", operator := some "equals", value := .str "x" }
        [[.str "h"], [.str "x"], [.str "y"]]).1 = [[.str "h"], [.str "x"]]
    ∧ ([[.str "h"], [.str "x"]] : List Row) ≠ [[.str "h"], [.str "y"]] := by
  decide

/-- Claim C2 (amended): both destructive handlers sort their collected row
indices strictly descending and delete in that order, and against the
renumbering store this leaves exactly the complement of the selected set: for
`FILTER_DATA` the selection is the *non-matching* rows (matching rows are
kept), for `DELETE_ROWS` it is the matching rows (`empty`/`equals`
conditions), and for `duplicate` every later occurrence of an already-seen
case-folded value. -/
theorem c2_descending_complement (params : ExecParams) (sheet : List Row) :
    (jsSortDesc (filterRowsToDelete params sheet)).Pairwise (· > ·)
    ∧ (jsSortDesc (deleteRowsToDelete params (startRowOf sheet)
         (checkValuesOf sheet (columnLetterToIndex params.column)
           (startRowOf sheet)))).Pairwise (· > ·)
    ∧ (filterData params sheet).1
        = sheet.take (startRowOf sheet - 1)
          ++ (sheet.drop (startRowOf sheet - 1)).filter
               (fun r => filterMatch params (getCell r (columnLetterToIndex params.column)))
    ∧ (params.condition ≠ some "duplicate" →
        (deleteRows params sheet).1
          = sheet.take (startRowOf sheet - 1)
            ++ (sheet.drop (startRowOf sheet - 1)).filter
                 (fun r => ! deleteRowsMatch params
                              (getCell r (columnLetterToIndex params.column))))
    ∧ (params.condition = some "duplicate" →
        (deleteRows params sheet).1
          = sheet.take (startRowOf sheet - 1)
            ++ keepRowsS dupStep
                 (fun r => getCell r (columnLetterToIndex params.column)) []
                 (sheet.drop (startRowOf sheet - 1))) := by
  refine ⟨?_, ?_, filterData_fst params sheet,
    deleteRows_fst_nondup params sheet, deleteRows_fst_dup params sheet⟩
  · exact jsSortDesc_pairwise_gt _ (collectS_nodup _ _ _ _)
  · by_cases h : params.condition = some "duplicate"
    · unfold deleteRowsToDelete
      rw [if_pos h]
      exact jsSortDesc_pairwise_gt _ (List.nodup_reverse.mpr (collectS_nodup _ _ _ _))
    · unfold deleteRowsToDelete
      rw [if_neg h]
      exact jsSortDesc_pairwise_gt _ (List.nodup_reverse.mpr (collectS_nodup _ _ _ _))

/-- Claim C2, witness: the descending order and the two complement equations
evaluated at concrete data (`DELETE_ROWS` with `equals` removes the matching
row, `FILTER_DATA` keeps it). -/
theorem c2_descending_complement_witness :
    (deleteRows { column := some "A", condition := some "equals", value := .str "x" }
        [[.str "h"], [.str "x"], [.str "y"]]).1 = [[.str "h"], [.str "y"]]
    ∧ (jsSortDesc (filterRowsToDelete
         { column := some "A", operator := some "equals", value := .str "x" }
         [[.str "h"], [.str "x"], [.str "y"]])).Pairwise (· > ·) := by
  constructor
  · have h := (c2_descending_complement
      { column := some "A", condition := some "equals", value := .str "x" }
      [[.str "h"], [.str "x"], [.str "y"]]).2.2.2.1 (by decide)
    rw [h]
    decide
  · exact (c2_descending_complement
      { column := some "A", operator := some "equals", value := .str "x" }
      [[.str "h"], [.str "x"], [.str "y"]]).1

/-- Claim C3, counterexample: on ten data rows of which *nine match* the
filter condition, only the one non-matching row is deleted, the computed
impact is 10.0% (100 tenths), and the result message carries no high-impact
annotation — the claim's 90%-with-warning behaviour occurs when nine rows are
*deleted*, not when nine rows match. -/
theorem c3_counterexample :
    (filterData { column := some "A", operator := some "equals", value := .str "x" }
        ([[.str "h"]] ++ List.replicate 9 [.str "x"] ++ [[.str "y"]])).2
      = "Kept rows where A equals \"x\" (Deleted 1 non-matching rows)"
    ∧ impactTenths 1 10 = 100 := by
  decide

/-- Claim C3 (amended): when the ten-row dataset has *nine non-matching* rows
(one match), the executor computes an impact of 90.0%, prefixes the result
message with the high-impact warning, and still completes the deletion,
leaving the untouched prefix plus the matching rows. -/
theorem c3_high_impact (params : ExecParams) (sheet : List Row)
    (htotal : (sheet.length : Int) - (startRowOf sheet : Int) + 1 = 10)
    (hdel : (filterRowsToDelete params sheet).length = 9) :
    impactTenths (filterRowsToDelete params sheet).length
        ((sheet.length : Int) - (startRowOf sheet : Int) + 1).toNat = 900
    ∧ (filterData params sheet).2
        = "⚠️ " ++ ("Kept rows where " ++ jsShowOpt params.column ++ " "
            ++ jsShowOpt params.operator ++ " \"" ++ jsToString params.value
            ++ "\" (Deleted " ++ toString (9 : Nat) ++ " non-matching rows)")
          ++ ". This removed more than half your data."
    ∧ (filterData params sheet).1
        = sheet.take (startRowOf sheet - 1)
          ++ (sheet.drop (startRowOf sheet - 1)).filter
               (fun r => filterMatch params (getCell r (columnLetterToIndex params.column))) := by
  refine ⟨?_, ?_, filterData_fst params sheet⟩
  · rw [hdel, htotal]
    decide
  · simp only [filterData, hdel, htotal]
    rw [if_neg (by decide : ¬ ((9 : Nat) = 0))]
    rw [if_pos (show (if (10 : Int) > 0 then
      decide (impactTenths 9 (Int.toNat 10) > 500) else false) = true by decide)]

/-- Claim C3, witness: one header row, one matching and nine non-matching
data rows; the impact is 90.0%, the warning is attached, the one matching row
survives. -/
theorem c3_high_impact_witness :
    ((([[.str "h"], [.str "x"]] ++ List.replicate 9 [.str "y"] : List Row).length : Int)
        - (startRowOf ([[.str "h"], [.str "x"]] ++ List.replicate 9 [.str "y"]) : Int) + 1 = 10)
    ∧ (filterData { column := some "A", operator := some "equals", value := .str "x" }
        ([[.str "h"], [.str "x"]] ++ List.replicate 9 [.str "y"])).2
      = "⚠️ Kept rows where A equals \"x\" (Deleted 9 non-matching rows). This removed more than half your data." := by
  constructor
  · decide
  · have h := (c3_high_impact
      { column := some "A", operator := some "equals", value := .str "x" }
      ([[.str "h"], [.str "x"]] ++ List.replicate 9 [.str "y"])
      (by decide) (by decide)).2.1
    rw [h]
    decide

/-- The `buildSum` binding as a registry builder: extract `column` from the
resolved parameters (`undefined` when absent, as the template literal would
interpolate it). -/
def sumBuilder (ps : List (String × ParamVal)) : String :=
  match ps.lookup "column" with
  | some (.scalar v) => buildSum (jsToString v)
  | _ => buildSum "undefined"

/-- A one-pattern registry for concrete compilation runs. -/
def registryS : List (String × PatternDef) :=
  [("sum", ⟨sumBuilder, ["column"], true⟩)]

/-- Claim C4, counterexample: a raw plan whose first calculation has an
unsupported pattern and whose second is valid compiles to a single step
numbered 2 — `stepNumber` is the raw index plus one, so a skipped item leaves
a gap and the sequence does not start at 1. -/
theorem c4_counterexample :
    (compileCalcs registryS [] false
        [⟨"bogus", [], none⟩, ⟨"sum", [("column", .scalar (.str "A"))], none⟩]).map
          Step.stepNumber = [2]
    ∧ ([2] : List Nat) ≠ List.range' 1
        (compileCalcs registryS [] false
          [⟨"bogus", [], none⟩, ⟨"sum", [("column", .scalar (.str "A"))], none⟩]).length := by
  decide

/-- Claim C4 (amended): emitted step numbers are the 1-based raw-list indices
of the surviving items: always strictly increasing and bounded by the raw
list's length, and equal to `1, 2, …, n` exactly when no calculation or
clean-data operation is skipped (the organization branch never skips). -/
theorem c4_step_numbering (registry : List (String × PatternDef))
    (headers : List Header) (wrapFlag : Bool) (calcs : List Calc)
    (cleanOps : List String) (ops : List Op) :
    ((compileCalcs registry headers wrapFlag calcs).map Step.stepNumber).Pairwise (· < ·)
    ∧ (∀ s ∈ compileCalcs registry headers wrapFlag calcs,
         1 ≤ s.stepNumber ∧ s.stepNumber ≤ calcs.length)
    ∧ ((∀ cal ∈ calcs, calcOk registry cal = true) →
         (compileCalcs registry headers wrapFlag calcs).map Step.stepNumber
           = List.range' 1 calcs.length)
    ∧ ((compileCleanAux cleanOps headers 0 ops).map Step.stepNumber).Pairwise (· < ·)
    ∧ (∀ s ∈ compileCleanAux cleanOps headers 0 ops,
         1 ≤ s.stepNumber ∧ s.stepNumber ≤ ops.length)
    ∧ (compileOrgAux headers 0 ops).map Step.stepNumber = List.range' 1 ops.length := by
  refine ⟨?_, ?_, ?_, ?_, ?_, compileOrgAux_stepNumbers headers ops 0⟩
  · exact List.pairwise_map.mpr (compileCalcsAux_pairwise registry headers wrapFlag calcs 0)
  · intro s hs
    simpa using compileCalcsAux_stepNumber_bounds registry headers wrapFlag calcs 0 s hs
  · intro h
    simpa using compileCalcsAux_all_ok registry headers wrapFlag calcs 0 h
  · exact List.pairwise_map.mpr (compileCleanAux_pairwise cleanOps headers ops 0)
  · intro s hs
    simpa using compileCleanAux_stepNumber_bounds cleanOps headers ops 0 s hs

/-- Claim C4, witness: with no skipped item the numbering is `[1, 2]`. -/
theorem c4_step_numbering_witness :
    (compileCalcs registryS [] false
        [⟨"sum", [("column", .scalar (.str "A"))], none⟩,
         ⟨"sum", [("column", .scalar (.str "B"))], none⟩]).map Step.stepNumber
      = List.range' 1 2 :=
  ((c4_step_numbering registryS [] false
      [⟨"sum", [("column", .scalar (.str "A"))], none⟩,
       ⟨"sum", [("column", .scalar (.str "B"))], none⟩] [] []).2.2.1
    (by decide)).trans (by decide)

/-- Claim C5 (confirmed): every identifier of one or two letters (any case)
resolves to its upper-cased self, no matter what the header list contains —
letter-shaped identifiers never go through name lookup. -/
theorem c5_letter_precedence (id : String) (headers : List Header)
    (h : isLetterShaped id = true) :
    resolveColumn id headers = jsToUpper id := by
  have hall : ∀ c ∈ id.data, isAsciiLetter c = true := by
    have h2 := (Bool.and_eq_true _ _).mp h
    exact fun c hc => List.all_eq_true.mp h2.2 c hc
  have hne : id ≠ "" := by
    intro he
    rw [he] at h
    exact absurd h (by decide)
  have htrim : jsTrim id = id :=
    jsTrim_eq_self_of_no_ws id (fun c hc => not_ws_of_alpha c (hall c hc))
  unfold resolveColumn
  rw [if_neg hne]
  simp only [htrim]
  rw [if_pos h]

/-- Claim C5, witness: a header literally named `ab` cannot capture the
identifier `ab`; the resolver upper-cases it instead. -/
theorem c5_letter_precedence_witness :
    isLetterShaped "ab" = true
    ∧ resolveColumn "ab" [⟨"ab", "C", 0⟩] = "AB" :=
  ⟨by decide,
   (c5_letter_precedence "ab" [⟨"ab", "C", 0⟩] (by decide)).trans (by decide)⟩

/-- Claim C6, counterexample: a non-letter-shaped identifier with surrounding
whitespace and no matching header comes back *trimmed*, not unchanged. -/
theorem c6_counterexample :
    resolveColumn " x1 " [] = "x1" ∧ (" x1 " : String) ≠ "x1" := by
  decide

/-- Claim C6 (amended): the resolver first trims the identifier; a
non-letter-shaped trimmed identifier resolves to the column letter of the
*first* header whose name matches it case-insensitively, and when no header
matches, the *trimmed* identifier (not necessarily the original) is returned,
leaving the failure to surface downstream. -/
theorem c6_name_resolution (id : String) (headers : List Header)
    (hne : id ≠ "") (hshape : isLetterShaped (jsTrim id) = false) :
    (∀ h, headers.find? (fun hd => jsToLower hd.name = jsToLower (jsTrim id)) = some h →
       resolveColumn id headers = h.column ∧ h ∈ headers
         ∧ jsToLower h.name = jsToLower (jsTrim id))
    ∧ (headers.find? (fun hd => jsToLower hd.name = jsToLower (jsTrim id)) = none →
       resolveColumn id headers = jsTrim id) := by
  unfold resolveColumn
  rw [if_neg hne]
  simp only [Bool.not_eq_true]
  constructor
  · intro h hf
    rw [if_neg (by simp [hshape]), hf]
    refine ⟨rfl, List.mem_of_find?_eq_some hf, ?_⟩
    have := List.find?_some hf
    exact of_decide_eq_true this
  · intro hf
    rw [if_neg (by simp [hshape]), hf]

/-- Claim C6, witness: `revenue` resolves to column `B` through the header
named `Revenue`; an unknown name passes through (trimmed). -/
theorem c6_name_resolution_witness :
    resolveColumn "revenue" [⟨"Revenue", "B", 0⟩] = "B"
    ∧ resolveColumn "nosuch" [⟨"Revenue", "B", 0⟩] = "nosuch" := by
  constructor
  · exact ((c6_name_resolution "revenue" [⟨"Revenue", "B", 0⟩]
      (by decide) (by decide)).1 ⟨"Revenue", "B", 0⟩ (by decide)).1.trans rfl
  · exact ((c6_name_resolution "nosuch" [⟨"Revenue", "B", 0⟩]
      (by decide) (by decide)).2 (by decide)).trans (by decide)

/-- Claim C7 (confirmed): the execution loop produces exactly one result
entry per plan step — a throwing step is recorded (via `mkEntry`) as a
`status:error` entry carrying the step number, action, description and error
text, and execution continues, so no failure aborts the remaining steps. -/
theorem c7_step_isolation (exec : Step → List Row → Except String (String × List Row))
    (plan : PlanS) (sheet : List Row) :
    (executePlan exec plan sheet).stepResults.length = plan.steps.length
    ∧ ∀ i, i < plan.steps.length →
        ∃ sh, (executePlan exec plan sheet).stepResults.getD i defaultEntry
                = mkEntry (plan.steps.getD i defaultStep)
                    (toOutcome (exec (plan.steps.getD i defaultStep) sh)) := by
  unfold executePlan
  by_cases hz : plan.steps = []
  · rw [if_pos hz]
    refine ⟨by simp [hz], fun i hi => ?_⟩
    rw [hz] at hi
    simp at hi
  · rw [if_neg hz]
    rcases hab : execPlanAux exec sheet plan.steps with ⟨es, rest⟩
    constructor
    · have h1 := execPlanAux_length exec plan.steps sheet
      rw [hab] at h1
      simpa [hab] using h1
    · intro i hi
      obtain ⟨sh, hsh⟩ := execPlanAux_get exec plan.steps sheet i hi
      rw [hab] at hsh
      exact ⟨sh, by simpa [hab] using hsh⟩

/-- A dispatcher that throws on the `BOOM` action and succeeds otherwise. -/
def execBoom : Step → List Row → Except String (String × List Row) :=
  fun s sheet => if s.action = "BOOM" then .error "kaput" else .ok ("done", sheet)

/-- A two-step plan whose first step throws. -/
def planBoom : PlanS :=
  ⟨some "demo", [⟨1, "BOOM", "d1", .kv []⟩, ⟨2, "OK", "d2", .kv []⟩]⟩

/-- Claim C7, witness: both entries are recorded — the first as an error
carrying its step fields, the second as a success. -/
theorem c7_step_isolation_witness :
    (executePlan execBoom planBoom []).stepResults.length = 2
    ∧ (∃ sh, (executePlan execBoom planBoom []).stepResults.getD 0 defaultEntry
         = mkEntry (planBoom.steps.getD 0 defaultStep)
             (toOutcome (execBoom (planBoom.steps.getD 0 defaultStep) sh)))
    ∧ (executePlan execBoom planBoom []).stepResults
        = [⟨1, "BOOM", "d1", "error", "kaput"⟩, ⟨2, "OK", "d2", "success", "done"⟩] :=
  ⟨(c7_step_isolation execBoom planBoom []).1.trans (by decide),
   (c7_step_isolation execBoom planBoom []).2 0 (by decide),
   by decide⟩

/-- An empty registry for concrete handler runs. -/
def regEmpty : Registry := ⟨[], false, [], [], 0, "", []⟩

/-- An empty raw plan for concrete handler runs. -/
def rpEmpty : RawPlan := ⟨none, [], none, none, none, [], none, none⟩

/-- Claim C8, counterexample: a classification of intent `insight` at
confidence 0.9 passes the gate yet the handler answers directly with an empty
step list and *never invokes the planning collaborator* — "for
confidence ≥ 0.6 compilation proceeds" fails for this intent. -/
theorem c8_counterexample :
    (6/10 : ℚ) ≤ 9/10
    ∧ handlePlan regEmpty ⟨"insight", none, 9/10⟩ "schema says hi" rpEmpty [] "p"
        = ({ success := true, answer := "schema says hi", summary := "", steps := [] },
           false) := by
  constructor
  · norm_num
  · unfold handlePlan
    rw [if_neg (by norm_num), if_pos rfl]

/-- Claim C8 (amended): below confidence 0.6 the handler short-circuits with
the clarification answer, an empty step list, and no planner invocation; at
or above 0.6 the planning collaborator is invoked for every intent except
`insight`, which answers directly with an empty step list and also skips the
planner. -/
theorem c8_confidence_gate (reg : Registry) (ir : IntentResult) (ia : String)
    (rp : RawPlan) (headers : List Header) (prompt : String) :
    (ir.confidence < 6/10 →
       handlePlan reg ir ia rp headers prompt
         = ({ success := false,
              answer := "I'm not sure what you want to do. Could you be more specific?",
              summary := "", steps := [] }, false))
    ∧ (¬ ir.confidence < 6/10 → ir.intent = "insight" →
       handlePlan reg ir ia rp headers prompt
         = ({ success := true, answer := ia, summary := "", steps := [] }, false))
    ∧ (¬ ir.confidence < 6/10 → ir.intent ≠ "insight" →
       (handlePlan reg ir ia rp headers prompt).2 = true) := by
  refine ⟨fun hc => ?_, fun hc hi => ?_, fun hc hi => ?_⟩
  · unfold handlePlan
    rw [if_pos hc]
  · unfold handlePlan
    rw [if_neg hc, if_pos hi]
  · unfold handlePlan
    rw [if_neg hc, if_neg hi]
    by_cases h1 : ir.intent = "formula"
    · rw [if_pos h1]
    · rw [if_neg h1]
      by_cases h2 : ir.intent = "chart"
      · rw [if_pos h2]
      · rw [if_neg h2]
        by_cases h3 : ir.intent = "clean_data"
        · rw [if_pos h3]
          cases rp.operations <;> rfl
        · rw [if_neg h3]
          by_cases h4 : ir.intent = "organization"
          · rw [if_pos h4]
            cases rp.operations <;> rfl
          · rw [if_neg h4]

/-- Claim C8, witness: at confidence 0.4 the gate trips (clarification, no
steps, planner not invoked); at 0.9 with intent `formula` the planner runs. -/
theorem c8_confidence_gate_witness :
    handlePlan regEmpty ⟨"formula", none, 4/10⟩ "ia" rpEmpty [] "p"
        = ({ success := false,
             answer := "I'm not sure what you want to do. Could you be more specific?",
             summary := "", steps := [] }, false)
    ∧ (handlePlan regEmpty ⟨"formula", none, 9/10⟩ "ia" rpEmpty [] "p").2 = true :=
  ⟨(c8_confidence_gate regEmpty ⟨"formula", none, 4/10⟩ "ia" rpEmpty [] "p").1
     (by norm_num),
   (c8_confidence_gate regEmpty ⟨"formula", none, 9/10⟩ "ia" rpEmpty [] "p").2.2
     (by norm_num) (by decide)⟩

/-- Claim C9 (confirmed): the `CLEAN_DATA` trim transformation is idempotent
on a column of cell values — every cell becomes the trimmed string of its
coercion, and trimming a trimmed string changes nothing. -/
theorem c9_trim_idempotent (params : ExecParams) (vals : List JsValue)
    (h : params.operation = some "trim" ∨ params.operation = some "trim_whitespace") :
    (vals.map (cleanValue params)).map (cleanValue params)
      = vals.map (cleanValue params) := by
  rw [List.map_map]
  apply List.map_congr_left
  intro v _
  rcases h with h | h <;>
    simp only [Function.comp_apply, cleanValue, h, jsToString, jsTrim_idem]

/-- Claim C9, witness: a column with padded text, a number and a null cell is
stable under a second trim. -/
theorem c9_trim_idempotent_witness :
    (([.str "  a  ", .num 5, .null].map
        (cleanValue { operation := some "trim_whitespace" })).map
        (cleanValue { operation := some "trim_whitespace" }))
      = [.str "  a  ", .num 5, .null].map
          (cleanValue { operation := some "trim_whitespace" })
    ∧ [.str "  a  ", .num 5, .null].map
        (cleanValue { operation := some "trim_whitespace" })
      = [.str "a", .str "5", .str "null"] :=
  ⟨c9_trim_idempotent { operation := some "trim_whitespace" }
     [.str "  a  ", .num 5, .null] (Or.inr rfl),
   by decide⟩

/-- Claim C10, counterexample: `aggregate` with a missing column does *not*
operate on column A — the computed `columnLetterToIndex` result is unused and
the formula interpolates the absent column as the text `undefined`. -/
theorem c10_counterexample :
    aggregate { operation := some "sum" } [[.str "h"], [.num 3]]
        = some "=SUM(undefined2:undefined2)"
    ∧ (some "=SUM(undefined2:undefined2)" : Option String)
        ≠ some "=SUM(A2:A2)" := by
  decide

/-- Claim C10 (amended): an absent or empty column parameter makes
`columnLetterToIndex` return 1, so the column-addressed handlers that
actually use it (`CONVERT_DATATYPE`, `SORT_DATA`, `FILTER_DATA`,
`CLEAN_DATA`, `DELETE_COLUMN`, `DELETE_ROWS`) silently operate on column A
rather than raising a column-not-found error — `DELETE_COLUMN` deletes
column A; `AGGREGATE` alone ignores the index and emits an
`undefined`-column formula instead. -/
theorem c10_falsy_column (params : ExecParams) (sheet : List Row)
    (hc : params.column = none ∨ params.column = some "") :
    columnLetterToIndex params.column = 1
    ∧ (deleteColumn params sheet).1 = sheet.map (fun r => r.eraseIdx 0)
    ∧ checkValuesOf sheet (columnLetterToIndex params.column) (startRowOf sheet)
        = (sheet.drop (startRowOf sheet - 1)).map (fun r => r.getD 0 (.str ""))
    ∧ (cleanData params sheet).1
        = writeColumn sheet 0 (startRowOf sheet)
            (((sheet.drop (startRowOf sheet - 1)).map (fun r => r.getD 0 (.str ""))).map
              (cleanValue params))
    ∧ (∀ convert, (convertDataType convert params sheet).1
        = writeColumn sheet 0 2
            (((sheet.drop 1).map (fun r => r.getD 0 (.str ""))).map
              (convert (jsShowOpt params.toType))))
    ∧ (∀ sorter, startRowOf sheet ≤ sheet.length →
        (sortData sorter params sheet).1
          = sheet.take (startRowOf sheet - 1)
            ++ sorter 0 (params.order = some "asc")
                 (sheet.drop (startRowOf sheet - 1))) := by
  have hcol : columnLetterToIndex params.column = 1 := by
    rcases hc with h | h <;> rw [h] <;> rfl
  have hget : ∀ r : Row, getCell r (columnLetterToIndex params.column)
      = r.getD 0 (.str "") := by
    intro r
    rw [hcol]
    rfl
  have hcheck : checkValuesOf sheet (columnLetterToIndex params.column) (startRowOf sheet)
      = (sheet.drop (startRowOf sheet - 1)).map (fun r => r.getD 0 (.str "")) := by
    unfold checkValuesOf
    exact List.map_congr_left (fun r _ => hget r)
  refine ⟨hcol, ?_, hcheck, ?_, fun convert => ?_, fun sorter hlen => ?_⟩
  · unfold deleteColumn
    rw [hcol]
    rfl
  · unfold cleanData
    rw [hcol] at hcheck ⊢
    simp only [hcheck]
    rfl
  · unfold convertDataType
    rw [hcol]
    have h2 : checkValuesOf sheet 1 2 = (sheet.drop 1).map (fun r => r.getD 0 (.str "")) := by
      unfold checkValuesOf
      exact List.map_congr_left (fun r _ => by rfl)
    simp only [h2]
    rfl
  · unfold sortData
    rw [hcol, if_neg (by omega)]
    rfl

/-- Claim C10, witness: with an empty column parameter the index is 1,
`DELETE_COLUMN` removes the first column, and `CLEAN_DATA` trims column A. -/
theorem c10_falsy_column_witness :
    columnLetterToIndex (some "") = 1
    ∧ (deleteColumn { column := some "" }
        [[.str "h", .str "k"], [.num 1, .num 2]]).1 = [[.str "k"], [.num 2]] := by
  constructor
  · exact (c10_falsy_column { column := some "" } [] (Or.inr rfl)).1
  · exact ((c10_falsy_column { column := some "" }
      [[.str "h", .str "k"], [.num 1, .num 2]] (Or.inr rfl)).2.1).trans (by decide)
